import Mathlib

/-!
Verification of the release-notes engine in `script/release-notes/notes.js`.

The JavaScript source is shallowly embedded: every regular expression and
string operation used by the script is translated into an executable Lean
function on `List Char` / `String`, JavaScript `null`/`undefined` values are
modelled with `Option`, thrown exceptions with `Option` results (`none` =
exception), and the mutable commit records with a `Commit` structure that is
threaded through explicit state-passing versions of the script's functions.
-/

namespace Notes

/-! ### JavaScript character classes and string primitives -/

/-- JavaScript `\s` (whitespace) character class, also used by `String.prototype.trim`. -/
def isSpaceJS (c : Char) : Bool :=
  c = ' ' || c = '\t' || c = '\n' || c = '\r' ||
  c = (Char.ofNat 11) || c = (Char.ofNat 12) ||
  c = (Char.ofNat 0xa0) || c = (Char.ofNat 0x1680) ||
  (Char.ofNat 0x2000 ≤ c && c ≤ (Char.ofNat 0x200a)) ||
  c = (Char.ofNat 0x2028) || c = (Char.ofNat 0x2029) ||
  c = (Char.ofNat 0x202f) || c = (Char.ofNat 0x205f) ||
  c = (Char.ofNat 0x3000) || c = (Char.ofNat 0xfeff)

/-- JavaScript `\w` (word) character class: `[A-Za-z0-9_]`. -/
def isWordCh (c : Char) : Bool :=
  ('a' ≤ c && c ≤ 'z') || ('A' ≤ c && c ≤ 'Z') || ('0' ≤ c && c ≤ '9') || c = '_'

/-- JavaScript `\d` (digit) character class. -/
def isDigitCh (c : Char) : Bool := '0' ≤ c && c ≤ '9'

/-- Character class `[a-f0-9]` of the revert-hash regex. -/
def isHexLower (c : Char) : Bool := ('a' ≤ c && c ≤ 'f') || isDigitCh c

/-- Line terminators, which the JavaScript `.` wildcard does not match. -/
def isLineTerm (c : Char) : Bool :=
  c = '\n' || c = '\r' || c = (Char.ofNat 0x2028) || c = (Char.ofNat 0x2029)

/-- `String.prototype.trim`. -/
def trimJS (s : String) : String :=
  String.mk (((s.data.dropWhile isSpaceJS).reverse.dropWhile isSpaceJS).reverse)

/-- ASCII lower-casing of one character, as `toLocaleLowerCase`/`toLowerCase`
act on the ASCII range. -/
def lowerC (c : Char) : Char :=
  if 'A' ≤ c && c ≤ 'Z' then Char.ofNat (c.toNat + 32) else c

/-- ASCII upper-casing of one character, as `toUpperCase` acts on ASCII. -/
def upperC (c : Char) : Char :=
  if 'a' ≤ c && c ≤ 'z' then Char.ofNat (c.toNat - 32) else c

/-- `String.prototype.toLowerCase` (ASCII fragment). -/
def lowerJS (s : String) : String := String.mk (s.data.map lowerC)

/-- `pat` is a prefix of `l` (both as character lists). -/
def startsL : List Char → List Char → Bool
  | [], _ => true
  | _ :: _, [] => false
  | p :: ps, c :: cs => p = c && startsL ps cs

/-- Strip the literal `pat` from the front of `l`, returning the remainder. -/
def stripLit : List Char → List Char → Option (List Char)
  | [], l => some l
  | _ :: _, [] => none
  | p :: ps, c :: cs => if p = c then stripLit ps cs else none

/-- `String.prototype.includes` on character lists. -/
def containsL (pat : List Char) : List Char → Bool
  | [] => startsL pat []
  | c :: rest => startsL pat (c :: rest) || containsL pat rest

/-- `String.prototype.includes`. -/
def containsSub (s pat : String) : Bool := containsL pat.data s.data

/-- Numeric value of a digit string, as `parseInt` computes it on `\d+` captures. -/
def toNatDigits (s : String) : Nat :=
  s.data.foldl (fun n c => n * 10 + (c.toNat - 48)) 0

/-- Split on the regex `/\r?\n\r?\n/` (blank-line paragraph separator), as
`String.prototype.split` scans for leftmost matches. -/
def splitParasAux : List Char → List Char → List (List Char)
  | acc, [] => [acc.reverse]
  | acc, '\r' :: '\n' :: '\r' :: '\n' :: rest => acc.reverse :: splitParasAux [] rest
  | acc, '\r' :: '\n' :: '\n' :: rest => acc.reverse :: splitParasAux [] rest
  | acc, '\n' :: '\r' :: '\n' :: rest => acc.reverse :: splitParasAux [] rest
  | acc, '\n' :: '\n' :: rest => acc.reverse :: splitParasAux [] rest
  | acc, c :: rest => splitParasAux (c :: acc) rest

/-- Paragraphs of a string, split on blank lines. -/
def splitParas (s : String) : List (List Char) := splitParasAux [] s.data

/-- Trim a character-list paragraph. -/
def trimL (l : List Char) : List Char :=
  ((l.dropWhile isSpaceJS).reverse.dropWhile isSpaceJS).reverse

/-- `String.prototype.replace` with a literal pattern and empty replacement:
removes the first occurrence of `pat`. -/
def removeFirstLit (pat : List Char) : List Char → List Char
  | [] => []
  | c :: cs =>
    match stripLit pat (c :: cs) with
    | some rest => rest
    | none => c :: removeFirstLit pat cs

/-- `.replace(/\r?\n/, ' ')`: replaces only the first newline (the regex has
no global flag). -/
def replaceFirstNl : List Char → List Char
  | [] => []
  | '\n' :: rest => ' ' :: rest
  | '\r' :: '\n' :: rest => ' ' :: rest
  | c :: rest => c :: replaceFirstNl rest

/-- Lexicographic (code-point) strict order on character lists, matching the
default comparator of `Array.prototype.sort` on strings. -/
def strLtL : List Char → List Char → Bool
  | [], [] => false
  | [], _ :: _ => true
  | _ :: _, [] => false
  | a :: as, b :: bs => if a < b then true else if b < a then false else strLtL as bs

/-- Non-strict string comparison used for sorting. -/
def strLeB (a b : String) : Bool := ! strLtL b.data a.data

/-- `Array.prototype.join(', ')`. -/
def joinComma : List String → String
  | [] => ""
  | [s] => s
  | s :: rest => s ++ (", ") ++ joinComma rest

/-! ### The regular expressions of `parseCommitMessage` and friends

Each JavaScript regex is translated into a deterministic matcher.  All the
patterns below are simple enough that greedy matching with backtracking has a
unique result (a maximal `\w+`/`\d+` run followed by a literal that cannot be
a word/digit character), so the matchers scan without backtracking. -/

/-- Maximal nonempty digit run at the front: the `(\d+)` piece.  Returns the
run and the remainder. -/
def digitRun (l : List Char) : Option (List Char × List Char) :=
  let ds := l.takeWhile isDigitCh
  if ds.isEmpty then none else some (ds, l.dropWhile isDigitCh)

/-- Maximal nonempty word run at the front: the `(\w+)` piece. -/
def wordRun (l : List Char) : Option (List Char × List Char) :=
  let ws := l.takeWhile isWordCh
  if ws.isEmpty then none else some (ws, l.dropWhile isWordCh)

/-- A `\b` word boundary holds after the scan position `prev`/before `next`
when exactly one side is a word character (`none` = start/end of input). -/
def noWordBefore : Option Char → Bool
  | none => true
  | some c => ! isWordCh c

/-- `\b` after a word character: the next character must not be a word
character (or the input ends). -/
def noWordNext : List Char → Bool
  | [] => true
  | c :: _ => ! isWordCh c

/-- `subject.match(/^(.*)\s\(#(\d+)\)$/)`: subject ends in ` (#digits)`.
Returns (group 1, digit string).  Scans from the end, where the anchored
pattern is deterministic; group 1 (`.*`) must contain no line terminator. -/
def matchPrSuffix (s : String) : Option (String × String) :=
  match s.data.reverse with
  | ')' :: rest =>
    match digitRun rest with
    | none => none
    | some (dsRev, rest2) =>
      match rest2 with
      | '#' :: '(' :: w :: front =>
        if isSpaceJS w && front.all (fun c => ! isLineTerm c) then
          some (String.mk front.reverse, String.mk dsRev.reverse)
        else none
      | _ => none
  | _ => none

/-- `subject.match(/^(\w+):\s(.*)$/)`: semantic-prefix form.  Returns
(word, group 2). -/
def matchSemantic (s : String) : Option (String × String) :=
  match wordRun s.data with
  | none => none
  | some (w, rest) =>
    match rest with
    | ':' :: sp :: tail =>
      if isSpaceJS sp && tail.all (fun c => ! isLineTerm c) then
        some (String.mk w, String.mk tail)
      else none
    | _ => none

/-- `subject.match(/^Merge pull request #(\d+) from (.*)$/)`.  Returns
(digit string, branch). -/
def matchMergePr (s : String) : Option (String × String) :=
  match stripLit (String.data ("Merge pull request #")) s.data with
  | none => none
  | some rest =>
    match digitRun rest with
    | none => none
    | some (ds, rest2) =>
      match stripLit (String.data (" from ")) rest2 with
      | none => none
      | some branch =>
        if branch.all (fun c => ! isLineTerm c) then
          some (String.mk ds, String.mk branch)
        else none

/-- One attempt of `/\bBackport of #(\d+)\b/` at the current position. -/
def tryBackportOf (prev : Option Char) (l : List Char) : Option String :=
  if noWordBefore prev then
    match stripLit (String.data ("Backport of #")) l with
    | none => none
    | some r =>
      match digitRun r with
      | none => none
      | some (ds, r2) => if noWordNext r2 then some (String.mk ds) else none
  else none

/-- Scan for the first match of `/\bBackport of #(\d+)\b/`. -/
def scanBackportOf (prev : Option Char) : List Char → Option String
  | [] => none
  | c :: rest =>
    match tryBackportOf prev (c :: rest) with
    | some ds => some ds
    | none => scanBackportOf (some c) rest

def matchBackportOf (s : String) : Option String := scanBackportOf none s.data

/-- The issue-closing keywords of
`/\b(?:close|closes|closed|fix|fixes|fixed|resolve|resolves|resolved|for)\s#(\d+)\b/`,
in the alternation order of the regex. -/
def closeKeywords : List (List Char) :=
  [String.data ("close"), String.data ("closes"), String.data ("closed"),
   String.data ("fix"), String.data ("fixes"), String.data ("fixed"),
   String.data ("resolve"), String.data ("resolves"), String.data ("resolved"),
   String.data ("for")]

/-- Try the keyword alternatives (in order) at the current position, each
followed by one `\s`, `#`, digits and a trailing `\b`. -/
def tryCloseKeyword (l : List Char) : List (List Char) → Option String
  | [] => none
  | kw :: kws =>
    match stripLit kw l with
    | none => tryCloseKeyword l kws
    | some r =>
      match r with
      | sp :: r2 =>
        if isSpaceJS sp then
          match r2 with
          | '#' :: r3 =>
            match digitRun r3 with
            | none => tryCloseKeyword l kws
            | some (ds, r4) =>
              if noWordNext r4 then some (String.mk ds) else tryCloseKeyword l kws
          | _ => tryCloseKeyword l kws
        else tryCloseKeyword l kws
      | [] => tryCloseKeyword l kws

/-- Scan for the first match of the issue-closing keyword regex. -/
def scanCloseKeyword (prev : Option Char) : List Char → Option String
  | [] => none
  | c :: rest =>
    match (if noWordBefore prev then tryCloseKeyword (c :: rest) closeKeywords else none) with
    | some ds => some ds
    | none => scanCloseKeyword (some c) rest

def matchCloseKeyword (s : String) : Option String := scanCloseKeyword none s.data

/-- One attempt of
`/Fixes \[#(\d+)\]\(https:\/\/github.com\/(\w+)\/(\w+)\/issues\/(\d+)\)/`
at the current position (the unescaped `.` of `github.com` matches any
non-line-terminator).  The code only uses capture group 1. -/
def tryMdFixes (l : List Char) : Option String :=
  match stripLit (String.data ("Fixes [#")) l with
  | none => none
  | some r1 =>
    match digitRun r1 with
    | none => none
    | some (ds, r2) =>
      match stripLit (String.data ("](https://github")) r2 with
      | none => none
      | some r3 =>
        match r3 with
        | dot :: r4 =>
          if isLineTerm dot then none else
          match stripLit (String.data ("com/")) r4 with
          | none => none
          | some r5 =>
            match wordRun r5 with
            | none => none
            | some (_, r6) =>
              match r6 with
              | '/' :: r7 =>
                match wordRun r7 with
                | none => none
                | some (_, r8) =>
                  match stripLit (String.data ("/issues/")) r8 with
                  | none => none
                  | some r9 =>
                    match digitRun r9 with
                    | none => none
                    | some (_, r10) =>
                      match r10 with
                      | ')' :: _ => some (String.mk ds)
                      | _ => none
              | _ => none
        | [] => none

/-- Scan for the first match of the markdown `Fixes [#N](...)` regex. -/
def scanMdFixes : List Char → Option String
  | [] => none
  | c :: rest =>
    match tryMdFixes (c :: rest) with
    | some ds => some ds
    | none => scanMdFixes rest

def matchMdFixes (s : String) : Option String := scanMdFixes s.data

/-- One attempt of `/This reverts commit ([a-f0-9]{40})\./`. -/
def tryRevert (l : List Char) : Option String :=
  match stripLit (String.data ("This reverts commit ")) l with
  | none => none
  | some r =>
    let hx := r.take 40
    if hx.length = 40 && hx.all isHexLower then
      match r.drop 40 with
      | '.' :: _ => some (String.mk hx)
      | _ => none
    else none

/-- Scan for the first match of the revert-commit regex. -/
def scanRevert : List Char → Option String
  | [] => none
  | c :: rest =>
    match tryRevert (c :: rest) with
    | some h => some h
    | none => scanRevert rest

def matchRevert (s : String) : Option String := scanRevert s.data

/-- One attempt of `/\b(\w+)\/(\w+)#(\d+)\b/` at the current position. -/
def tryOwnerRepoNum (prev : Option Char) (l : List Char) : Option (String × String × String) :=
  if noWordBefore prev then
    match wordRun l with
    | none => none
    | some (w1, r1) =>
      match r1 with
      | '/' :: r2 =>
        match wordRun r2 with
        | none => none
        | some (w2, r3) =>
          match r3 with
          | '#' :: r4 =>
            match digitRun r4 with
            | none => none
            | some (ds, r5) =>
              if noWordNext r5 then some (String.mk w1, String.mk w2, String.mk ds) else none
          | _ => none
      | _ => none
  else none

/-- Scan for the first match of the `owner/repo#number` regex. -/
def scanOwnerRepoNum (prev : Option Char) : List Char → Option (String × String × String)
  | [] => none
  | c :: rest =>
    match tryOwnerRepoNum prev (c :: rest) with
    | some m => some m
    | none => scanOwnerRepoNum (some c) rest

def matchOwnerRepoNum (s : String) : Option (String × String × String) :=
  scanOwnerRepoNum none s.data

/-- One attempt of `/https:\/\/github\.com\/(\w+)\/(\w+)\/pull\/(\d+)/`. -/
def tryPullUrl (l : List Char) : Option (String × String × String) :=
  match stripLit (String.data ("https://github.com/")) l with
  | none => none
  | some r1 =>
    match wordRun r1 with
    | none => none
    | some (w1, r2) =>
      match r2 with
      | '/' :: r3 =>
        match wordRun r3 with
        | none => none
        | some (w2, r4) =>
          match stripLit (String.data ("/pull/")) r4 with
          | none => none
          | some r5 =>
            match digitRun r5 with
            | none => none
            | some (ds, _) => some (String.mk w1, String.mk w2, String.mk ds)
      | _ => none

/-- Scan for the first match of the pull-request URL regex. -/
def scanPullUrl : List Char → Option (String × String × String)
  | [] => none
  | c :: rest =>
    match tryPullUrl (c :: rest) with
    | some m => some m
    | none => scanPullUrl rest

def matchPullUrl (s : String) : Option (String × String × String) := scanPullUrl s.data

/-- One attempt of `/\bchore\((\w+)\):/` (on the lower-cased message). -/
def tryChoreScope (prev : Option Char) (l : List Char) : Option String :=
  if noWordBefore prev then
    match stripLit (String.data ("chore(")) l with
    | none => none
    | some r =>
      match wordRun r with
      | none => none
      | some (w, r2) =>
        match r2 with
        | ')' :: ':' :: _ => some (String.mk w)
        | _ => none
  else none

/-- Scan for the first match of the `chore(scope):` regex. -/
def scanChoreScope (prev : Option Char) : List Char → Option String
  | [] => none
  | c :: rest =>
    match tryChoreScope prev (c :: rest) with
    | some w => some w
    | none => scanChoreScope (some c) rest

def matchChoreScope (s : String) : Option String := scanChoreScope none s.data

/-- `/\b(?:fix|fixes|fixed)/` on the lower-cased message: since `fix` is a
prefix of the other alternatives and there is no trailing `\b`, this is just
an occurrence of `fix` at a word boundary. -/
def scanFixWord (prev : Option Char) : List Char → Bool
  | [] => false
  | c :: rest =>
    (noWordBefore prev && startsL (String.data ("fix")) (c :: rest)) ||
    scanFixWord (some c) rest

def hasFixWord (s : String) : Bool := scanFixWord none s.data

/-- `/\[(?:docs|doc)\]/`: an occurrence of `[docs]` or `[doc]`. -/
def hasDocsTag (s : String) : Bool :=
  containsSub s ("[docs]") || containsSub s ("[doc]")

/-- Any blank-line-delimited paragraph of the message starts (after trimming)
with `BREAKING CHANGE` (lines 178-183 of `notes.js`). -/
def hasBreakingPara (s : String) : Bool :=
  (splitParas s).any (fun p => startsL (String.data ("BREAKING CHANGE")) (trimL p))

/-- `/^[Bb]ump v\d+\.\d+\.\d+/` (the version-bump filter). -/
def matchBump (s : String) : Bool :=
  match s.data with
  | c :: 'u' :: 'm' :: 'p' :: ' ' :: 'v' :: rest =>
    (c = 'B' || c = 'b') &&
    (match digitRun rest with
     | none => false
     | some (_, r1) =>
       match r1 with
       | '.' :: r2 =>
         (match digitRun r2 with
          | none => false
          | some (_, r3) =>
            match r3 with
            | '.' :: r4 => (digitRun r4).isSome
            | _ => false)
       | _ => false)
  | _ => false

/-! ### Data model

JavaScript `null`/`undefined` are both modelled as `none` (the script only
ever distinguishes them by truthiness).  A pull-request number is a JavaScript
number or string: `setPullRequest` is called with `parseInt` results by most
rules, but with the raw matched string by the manual-backport rules
(lines 190-206), and the script later compares numbers with strict `!==`. -/

/-- A pull-request number as stored by the script: `parseInt` result or raw
digit string. -/
inductive PrNum where
  | int (n : Nat)
  | str (s : String)
deriving DecidableEq

/-- JavaScript strict equality `===` on pull-request numbers: a number and a
string are never strictly equal. -/
def prNumEqJS : PrNum → PrNum → Bool
  | .int n, .int m => n = m
  | .str s, .str t => s = t
  | _, _ => false

/-- JavaScript truthiness of a pull-request number (`0` is falsy, a nonempty
string such as `"0"` is truthy). -/
def prNumTruthy : PrNum → Bool
  | .int n => n ≠ 0
  | .str s => s ≠ ("")

/-- The `{ owner, repo, number, branch }` pull-request reference. -/
structure Pr where
  owner : String
  repo : String
  number : PrNum
  branch : Option String := none
deriving DecidableEq

/-- A commit record, as enriched by `parseCommitMessage`.  All fields are
optional, mirroring a plain JavaScript object that starts as `{}`. -/
structure Commit where
  email : Option String := none
  hash : Option String := none
  owner : Option String := none
  repo : Option String := none
  originalSubject : Option String := none
  subject : Option String := none
  body : Option String := none
  note : Option String := none
  type : Option String := none
  pr : Option Pr := none
  originalPr : Option Pr := none
  issueNumber : Option Nat := none
  revertHash : Option String := none
deriving DecidableEq

def emptyCommit : Commit := {}

/-- JavaScript truthiness of an optional string (`undefined`, `null` and `""`
are falsy). -/
def optTruthy : Option String → Bool
  | none => false
  | some s => s ≠ ("")

/-- JavaScript truthiness of the optional `issueNumber` (`0` is falsy). -/
def numTruthy : Option Nat → Bool
  | none => false
  | some n => n ≠ 0

/-- The reserved sentinel `NO_NOTES = 'No notes'`. -/
def NO_NOTES : String := "No notes"

/-- `FOLLOW_REPOS` (line 14). -/
def FOLLOW_REPOS : List String :=
  [("electron/electron"), ("electron/libchromiumcontent"), ("electron/node")]

/-- The known semantic types: union of `breakTypes`, `docTypes`, `featTypes`,
`fixTypes` and `otherTypes` (lines 19-24). -/
def breakTypes : List String := [("breaking-change")]
def docTypes : List String := [("doc"), ("docs")]
def featTypes : List String := [("feat"), ("feature")]
def fixTypes : List String := [("fix")]
def otherTypes : List String :=
  [("spec"), ("build"), ("test"), ("chore"), ("deps"), ("refactor"),
   ("tools"), ("vendor"), ("perf"), ("style"), ("ci")]
def knownTypes : List String := breakTypes ++ docTypes ++ featTypes ++ fixTypes ++ otherTypes

/-! ### `setPullRequest` (lines 50-64)

Throws (modelled as `none`) when owner, repo or number is falsy.  The second
component of the result records whether `commit.originalPr` was assigned the
freshly created `commit.pr` object, i.e. whether the two fields now alias the
same object (the merge-commit rule then mutates `.branch` through both). -/

def setPullRequest (c : Commit) (owner repo : String) (number : PrNum) :
    Option (Commit × Bool) :=
  if owner = ("") || repo = ("") || ! prNumTruthy number then none
  else
    let c1 := if c.originalPr = none then { c with originalPr := c.pr } else c
    let c2 := { c1 with pr := some { owner := owner, repo := repo, number := number } }
    if c2.originalPr = none then some ({ c2 with originalPr := c2.pr }, true)
    else some (c2, false)

/-! ### `getNoteFromBody` (lines 66-97) -/

/-- The placeholder token stripped from notes (line 79). -/
def PLACEHOLDER : String := "<!-- One-line Change Summary Here-->"

/-- The full-anchored regex `/^[Nn]o[ _-][Nn]otes\.?$/` recognises exactly
these 24 strings. -/
def noNotesTokens : List String :=
  [("No Notes"), ("No Notes."), ("No notes"), ("No notes."),
   ("No_Notes"), ("No_Notes."), ("No_notes"), ("No_notes."),
   ("No-Notes"), ("No-Notes."), ("No-notes"), ("No-notes."),
   ("no Notes"), ("no Notes."), ("no notes"), ("no notes."),
   ("no_Notes"), ("no_Notes."), ("no_notes"), ("no_notes."),
   ("no-Notes"), ("no-Notes."), ("no-notes"), ("no-notes.")]

/-- The full-anchored regex `/^[Nn]one\.?$/` recognises exactly these
4 strings. -/
def noneTokens : List String :=
  [("None"), ("None."), ("none"), ("none.")]

/-- Cleaning pipeline applied to a found `Notes: ` paragraph (lines 80-84):
strip the 7-character prefix, remove the placeholder, replace the *first*
newline, trim. -/
def cleanNotePara (p : List Char) : String :=
  trimJS (String.mk (replaceFirstNl (removeFirstLit PLACEHOLDER.data (p.drop 7))))

/-- Lines 73-76: the first trimmed blank-line paragraph starting with
`Notes: `. -/
def notesParaOf (b : String) : Option (List Char) :=
  ((splitParas b).map trimL).find? (fun p => startsL (String.data ("Notes: ")) p)

/-- `getNoteFromBody(body)`: find the first trimmed paragraph starting with
`Notes: `, clean it, and map the no-notes spellings to the sentinel. -/
def getNoteFromBody (body : Option String) : Option String :=
  match body with
  | none => none
  | some b =>
    if b = ("") then none
    else
      match notesParaOf b with
      | none => none
      | some p =>
        let note := cleanNotePara p
        if note ≠ ("") && (noNotesTokens.contains note || noneTokens.contains note) then
          some NO_NOTES
        else some note

/-! ### `parseCommitMessage` (lines 110-226)

The function is written as a pipeline of stages, one per rule of the source,
threaded through a `PState` (current subject + commit record).  Stages that
call `setPullRequest` can throw and return `Option`. -/

/-- Mutable state of `parseCommitMessage`: the evolving `subject` local and
the commit record. -/
structure PState where
  subject : String
  commit : Commit
deriving DecidableEq

/-- Lines 112-118: split the message at the first `\n`; both pieces are
trimmed (the body includes the newline itself, which trimming removes). -/
def splitSubjectBody (msg : String) : String × String :=
  match msg.data.findIdx? (fun c => c = '\n') with
  | none => (msg, "")
  | some p => (trimJS (String.mk (msg.data.take p)), trimJS (String.mk (msg.data.drop p)))

/-- Lines 120-122: record `originalSubject` on first assignment. -/
def stOrigSubject (st : PState) : PState :=
  if optTruthy st.commit.originalSubject then st
  else { st with commit := { st.commit with originalSubject := some st.subject } }

/-- Lines 124-129: store a nonempty body and any truthy extracted note. -/
def stBody (body : String) (st : PState) : PState :=
  if body = ("") then st
  else
    let c1 := { st.commit with body := some body }
    let n := getNoteFromBody (some body)
    if optTruthy n then { st with commit := { c1 with note := n } }
    else { st with commit := c1 }

/-- Lines 131-136: `subject` ends in ` (#dddd)`. -/
def stPrSuffix (owner repo : String) (st : PState) : Option PState :=
  match matchPrSuffix st.subject with
  | none => some st
  | some (rest, ds) =>
    match setPullRequest st.commit owner repo (.int (toNatDigits ds)) with
    | none => none
    | some (c, _) => some { subject := rest, commit := c }

/-- Lines 138-142: semantic `word:` prefix. -/
def stSemantic (st : PState) : PState :=
  match matchSemantic st.subject with
  | none => st
  | some (w, rest) =>
    { subject := rest, commit := { st.commit with type := some (lowerJS w) } }

/-- Lines 144-148: GitHub merge-commit subject.  When `setPullRequest` made
`originalPr` alias the fresh `pr` object, the `.branch` mutation is visible
through both fields. -/
def stMerge (owner repo : String) (st : PState) : Option PState :=
  match matchMergePr st.subject with
  | none => some st
  | some (ds, branch) =>
    match setPullRequest st.commit owner repo (.int (toNatDigits ds)) with
    | none => none
    | some (c, aliased) =>
      let br := trimJS branch
      let c1 := { c with pr := c.pr.map (fun p => { p with branch := some br }) }
      let c2 :=
        if aliased then
          { c1 with originalPr := c1.originalPr.map (fun p => { p with branch := some br }) }
        else c1
      some { st with commit := c2 }

/-- Lines 150-153: `Backport of #dddd` anywhere in the message. -/
def stBackportOf (msg owner repo : String) (st : PState) : Option PState :=
  match matchBackportOf msg with
  | none => some st
  | some ds =>
    match setPullRequest st.commit owner repo (.int (toNatDigits ds)) with
    | none => none
    | some (c, _) => some { st with commit := c }

/-- Lines 155-161: issue-closing keyword in the subject. -/
def stKeyword (st : PState) : PState :=
  match matchCloseKeyword st.subject with
  | none => st
  | some ds =>
    let c1 := { st.commit with issueNumber := some (toNatDigits ds) }
    let c2 := if optTruthy c1.type then c1 else { c1 with type := some ("fix") }
    { st with commit := c2 }

/-- Lines 163-175: markdown `Fixes [#N](https://github.com/o/r/issues/M)`.
Guarded by `!commit.issueNumber`; clears `pr`/`originalPr` whose number is
strictly equal to the new issue number. -/
def stMdFixes (msg : String) (st : PState) : PState :=
  if numTruthy st.commit.issueNumber then st
  else
    match matchMdFixes msg with
    | none => st
    | some ds =>
      let n := toNatDigits ds
      let c1 := { st.commit with issueNumber := some n }
      let c2 :=
        match c1.pr with
        | some p => if prNumEqJS p.number (.int n) then { c1 with pr := none } else c1
        | none => c1
      let c3 :=
        match c2.originalPr with
        | some p => if prNumEqJS p.number (.int n) then { c2 with originalPr := none } else c2
        | none => c2
      let c4 := if optTruthy c3.type then c3 else { c3 with type := some ("fix") }
      { st with commit := c4 }

/-- Lines 177-183: a paragraph starting with `BREAKING CHANGE` forces the
type. -/
def stBreaking (msg : String) (st : PState) : PState :=
  if hasBreakingPara msg then
    { st with commit := { st.commit with type := some ("breaking-change") } }
  else st

/-- Lines 185-188: reversion commit. -/
def stRevert (body : String) (st : PState) : PState :=
  match matchRevert body with
  | none => st
  | some h => { st with commit := { st.commit with revertHash := some h } }

/-- Lines 190-197: manual backport with `owner/repo#number` notation.  Note
that the matched *digit string* is passed to `setPullRequest` unconverted. -/
def stManualBackport (msg : String) (st : PState) : Option PState :=
  if containsSub (lowerJS msg) ("backport") then
    match matchOwnerRepoNum msg with
    | none => some st
    | some (o, r, ds) =>
      if FOLLOW_REPOS.contains (o ++ ("/") ++ r) then
        match setPullRequest st.commit o r (.str ds) with
        | none => none
        | some (c, _) => some { st with commit := c }
      else some st
  else some st

/-- Lines 199-206: manual backport with a pull-request URL.  Again the digit
string is stored unconverted. -/
def stAckportUrl (msg : String) (st : PState) : Option PState :=
  if containsSub msg ("ackport") then
    match matchPullUrl msg with
    | none => some st
    | some (o, r, ds) =>
      if FOLLOW_REPOS.contains (o ++ ("/") ++ r) then
        match setPullRequest st.commit o r (.str ds) with
        | none => none
        | some (c, _) => some { st with commit := c }
      else some st
  else some st

/-- Lines 208-221: legacy pre-semantic commits, only when `type` is unset or
`'chore'`. -/
def stLegacy (msg : String) (st : PState) : PState :=
  if ! optTruthy st.commit.type || st.commit.type = some ("chore") then
    let lc := lowerJS msg
    match matchChoreScope lc with
    | some scope =>
      { st with commit :=
        { st.commit with
          type := some (if knownTypes.contains scope then scope else ("chore")) } }
    | none =>
      if hasFixWord lc then
        { st with commit := { st.commit with type := some ("fix") } }
      else if hasDocsTag lc then
        { st with commit := { st.commit with type := some ("doc") } }
      else st
  else st

/-- Line 223: store the trimmed subject. -/
def stSubjectFinal (st : PState) : PState :=
  { st with commit := { st.commit with subject := some (trimJS st.subject) } }

/-- Stages from the reversion rule to the end (lines 185-225). -/
def parseTail (msg body : String) (st : PState) : Option Commit :=
  match stManualBackport msg (stRevert body st) with
  | none => none
  | some st1 =>
    match stAckportUrl msg st1 with
    | none => none
    | some st2 => some (stSubjectFinal (stLegacy msg st2)).commit

/-- The full rule pipeline on an already-split message. -/
def parseCore (msg owner repo subject body : String) (c : Commit) : Option Commit :=
  match stPrSuffix owner repo (stBody body (stOrigSubject { subject := subject, commit := c })) with
  | none => none
  | some st1 =>
    match stMerge owner repo (stSemantic st1) with
    | none => none
    | some st2 =>
      match stBackportOf msg owner repo st2 with
      | none => none
      | some st3 =>
        parseTail msg body (stBreaking msg (stMdFixes msg (stKeyword st3)))

/-- `parseCommitMessage(commitMessage, owner, repo, commit = {})`
(lines 110-226).  Returns `none` when the JavaScript would throw. -/
def parseCommitMessage (msg owner repo : String) (c : Commit) : Option Commit :=
  parseCore msg owner repo (splitSubjectBody msg).1 (splitSubjectBody msg).2 c

/-! #### Total (non-throwing) forms of the throwing stages

`setPullRequest` only throws on falsy arguments, a condition independent of
the commit record.  The `…T` functions below are the non-throwing branches;
the characterization lemmas later prove `stX … = if ok then some (stXT …)
else none`, which both extracts the success value and shows that success is
commit-independent. -/

/-- The success condition of `setPullRequest` (negation of the throw test on
line 51). -/
def sprOk (owner repo : String) (number : PrNum) : Bool :=
  ! (owner = ("") || repo = ("") || ! prNumTruthy number)

/-- Whether `setPullRequest` will make `originalPr` alias the fresh `pr`
object: both fields falsy on entry. -/
def aliasFlag (c : Commit) : Bool := c.originalPr = none && c.pr = none

/-- The non-throwing branch of `setPullRequest`. -/
def setPullRequestT (c : Commit) (owner repo : String) (number : PrNum) : Commit :=
  let c1 := if c.originalPr = none then { c with originalPr := c.pr } else c
  let c2 := { c1 with pr := some { owner := owner, repo := repo, number := number } }
  if c2.originalPr = none then { c2 with originalPr := c2.pr } else c2

/-- Total form of the ` (#dddd)` rule. -/
def stPrSuffixT (owner repo : String) (st : PState) : PState :=
  match matchPrSuffix st.subject with
  | none => st
  | some (rest, ds) =>
    { subject := rest,
      commit := setPullRequestT st.commit owner repo (.int (toNatDigits ds)) }

/-- Total form of the merge-commit rule. -/
def stMergeT (owner repo : String) (st : PState) : PState :=
  match matchMergePr st.subject with
  | none => st
  | some (ds, branch) =>
    let aliased := aliasFlag st.commit
    let c := setPullRequestT st.commit owner repo (.int (toNatDigits ds))
    let br := trimJS branch
    let c1 := { c with pr := c.pr.map (fun p => { p with branch := some br }) }
    let c2 :=
      if aliased then
        { c1 with originalPr := c1.originalPr.map (fun p => { p with branch := some br }) }
      else c1
    { st with commit := c2 }

/-- Total form of the `Backport of #dddd` rule. -/
def stBackportOfT (msg owner repo : String) (st : PState) : PState :=
  match matchBackportOf msg with
  | none => st
  | some ds => { st with commit := setPullRequestT st.commit owner repo (.int (toNatDigits ds)) }

/-- The owner/repo/digits triple recorded by the manual-backport rule when
it fires (`none` when it does not). -/
def manualVal (msg : String) : Option (String × String × String) :=
  if containsSub (lowerJS msg) ("backport") then
    match matchOwnerRepoNum msg with
    | none => none
    | some (o, r, ds) =>
      if FOLLOW_REPOS.contains (o ++ ("/") ++ r) then some (o, r, ds) else none
  else none

/-- The triple recorded by the backport-URL rule when it fires. -/
def ackportVal (msg : String) : Option (String × String × String) :=
  if containsSub msg ("ackport") then
    match matchPullUrl msg with
    | none => none
    | some (o, r, ds) =>
      if FOLLOW_REPOS.contains (o ++ ("/") ++ r) then some (o, r, ds) else none
  else none

/-- Total form of the manual-backport rule. -/
def stManualBackportT (msg : String) (st : PState) : PState :=
  match manualVal msg with
  | none => st
  | some (o, r, ds) => { st with commit := setPullRequestT st.commit o r (.str ds) }

/-- Total form of the backport-URL rule. -/
def stAckportUrlT (msg : String) (st : PState) : PState :=
  match ackportVal msg with
  | none => st
  | some (o, r, ds) => { st with commit := setPullRequestT st.commit o r (.str ds) }

/-- The whole rule pipeline, total form. -/
def parseTotal (msg owner repo : String) (c : Commit) : Commit :=
  (stSubjectFinal
    (stLegacy msg
      (stAckportUrlT msg
        (stManualBackportT msg
          (stRevert (splitSubjectBody msg).2
            (stBreaking msg
              (stMdFixes msg
                (stKeyword
                  (stBackportOfT msg owner repo
                    (stMergeT owner repo
                      (stSemantic
                        (stPrSuffixT owner repo
                          (stBody (splitSubjectBody msg).2
                            (stOrigSubject
                              { subject := (splitSubjectBody msg).1,
                                commit := c })))))))))))))).commit

/-- Success conditions of the five pull-request-recording rules, as
functions of the subject/message only (commit-independent). -/
def okPr (owner repo s : String) : Bool :=
  match matchPrSuffix s with
  | none => true
  | some (_, ds) => sprOk owner repo (.int (toNatDigits ds))

def okMerge (owner repo s : String) : Bool :=
  match matchMergePr s with
  | none => true
  | some (ds, _) => sprOk owner repo (.int (toNatDigits ds))

def okBackportOf (msg owner repo : String) : Bool :=
  match matchBackportOf msg with
  | none => true
  | some ds => sprOk owner repo (.int (toNatDigits ds))

def okManual (msg : String) : Bool :=
  match manualVal msg with
  | none => true
  | some (o, r, ds) => sprOk o r (.str ds)

def okAckport (msg : String) : Bool :=
  match ackportVal msg with
  | none => true
  | some (o, r, ds) => sprOk o r (.str ds)

/-- The subject after the ` (#dddd)` suffix strip. -/
def subjAfterPr (msg : String) : String :=
  match matchPrSuffix (splitSubjectBody msg).1 with
  | none => (splitSubjectBody msg).1
  | some (rest, _) => rest

/-- The subject after the semantic-prefix strip. -/
def subjAfterSem (msg : String) : String :=
  match matchSemantic (subjAfterPr msg) with
  | none => subjAfterPr msg
  | some (_, rest) => rest

/-- Success of the whole parse, as a function of message/owner/repo only. -/
def parseOk (msg owner repo : String) : Bool :=
  okPr owner repo (splitSubjectBody msg).1 &&
  okMerge owner repo (subjAfterSem msg) &&
  okBackportOf msg owner repo &&
  okManual msg &&
  okAckport msg

/-- The type-transforming part of the legacy fallback (lines 208-221), as a
function of the message and the incoming type. -/
def legacyType (msg : String) (t : Option String) : Option String :=
  if ! optTruthy t || t = some ("chore") then
    match matchChoreScope (lowerJS msg) with
    | some scope => some (if knownTypes.contains scope then scope else ("chore"))
    | none =>
      if hasFixWord (lowerJS msg) then some ("fix")
      else if hasDocsTag (lowerJS msg) then some ("doc")
      else t
  else t

/-! #### Closed forms of the per-field evolution through one parse

Each `…AfterK` function gives the value of one commit field after pipeline
stage `K`, as a function of the message and the field's (and, for
`originalPr`, the `pr` field's) incoming value.  They mirror the
characterization lemmas below stage by stage and are used to state the full
closed form `parseTotal_char`. -/

def prAfter3 (m o r : String) (p : Option Pr) : Option Pr :=
  match matchPrSuffix (splitSubjectBody m).1 with
  | none => p
  | some (_, ds) =>
    some { owner := o, repo := r, number := .int (toNatDigits ds), branch := none }

def qAfter3 (m o r : String) (p q : Option Pr) : Option Pr :=
  match matchPrSuffix (splitSubjectBody m).1 with
  | none => q
  | some (_, ds) =>
    if q = none then
      (if p = none then
        some { owner := o, repo := r, number := .int (toNatDigits ds), branch := none }
       else p)
    else q

def prAfter5 (m o r : String) (p : Option Pr) : Option Pr :=
  match matchMergePr (subjAfterSem m) with
  | none => prAfter3 m o r p
  | some (ds, br) =>
    some { owner := o, repo := r, number := .int (toNatDigits ds),
           branch := some (trimJS br) }

def qAfter5 (m o r : String) (p q : Option Pr) : Option Pr :=
  match matchMergePr (subjAfterSem m) with
  | none => qAfter3 m o r p q
  | some (ds, br) =>
    if qAfter3 m o r p q = none then
      (if prAfter3 m o r p = none then
        some { owner := o, repo := r, number := .int (toNatDigits ds),
               branch := some (trimJS br) }
       else prAfter3 m o r p)
    else qAfter3 m o r p q

def prAfter6 (m o r : String) (p : Option Pr) : Option Pr :=
  match matchBackportOf m with
  | none => prAfter5 m o r p
  | some ds =>
    some { owner := o, repo := r, number := .int (toNatDigits ds), branch := none }

def qAfter6 (m o r : String) (p q : Option Pr) : Option Pr :=
  match matchBackportOf m with
  | none => qAfter5 m o r p q
  | some ds =>
    if qAfter5 m o r p q = none then
      (if prAfter5 m o r p = none then
        some { owner := o, repo := r, number := .int (toNatDigits ds), branch := none }
       else prAfter5 m o r p)
    else qAfter5 m o r p q

def prAfter11 (m o r : String) (p : Option Pr) : Option Pr :=
  match manualVal m with
  | none => prAfter6 m o r p
  | some (o2, r2, ds) =>
    some { owner := o2, repo := r2, number := .str ds, branch := none }

def qAfter11 (m o r : String) (p q : Option Pr) : Option Pr :=
  match manualVal m with
  | none => qAfter6 m o r p q
  | some (o2, r2, ds) =>
    if qAfter6 m o r p q = none then
      (if prAfter6 m o r p = none then
        some { owner := o2, repo := r2, number := .str ds, branch := none }
       else prAfter6 m o r p)
    else qAfter6 m o r p q

def prAfter12 (m o r : String) (p : Option Pr) : Option Pr :=
  match ackportVal m with
  | none => prAfter11 m o r p
  | some (o2, r2, ds) =>
    some { owner := o2, repo := r2, number := .str ds, branch := none }

def qAfter12 (m o r : String) (p q : Option Pr) : Option Pr :=
  match ackportVal m with
  | none => qAfter11 m o r p q
  | some (o2, r2, ds) =>
    if qAfter11 m o r p q = none then
      (if prAfter11 m o r p = none then
        some { owner := o2, repo := r2, number := .str ds, branch := none }
       else prAfter11 m o r p)
    else qAfter11 m o r p q

def tAfterSem (m : String) (t : Option String) : Option String :=
  match matchSemantic (subjAfterPr m) with
  | none => t
  | some (w, _) => some (lowerJS w)

def tAfterKw (m : String) (t : Option String) : Option String :=
  match matchCloseKeyword (subjAfterSem m) with
  | none => tAfterSem m t
  | some _ => if optTruthy (tAfterSem m t) then tAfterSem m t else some ("fix")

def tAfterBr (m : String) (t : Option String) : Option String :=
  if hasBreakingPara m then some ("breaking-change") else tAfterKw m t

def tFinal (m : String) (t : Option String) : Option String :=
  legacyType m (tAfterBr m t)

def iAfterKw (m : String) (i : Option Nat) : Option Nat :=
  match matchCloseKeyword (subjAfterSem m) with
  | none => i
  | some ds => some (toNatDigits ds)

def rvAfter (m : String) (rv : Option String) : Option String :=
  match matchRevert (splitSubjectBody m).2 with
  | none => rv
  | some h => some h

def osAfter (m : String) (os : Option String) : Option String :=
  if optTruthy os then os else some ((splitSubjectBody m).1)

def bodyAfter (m : String) (b : Option String) : Option String :=
  if (splitSubjectBody m).2 = ("") then b else some ((splitSubjectBody m).2)

def noteAfter (m : String) (n : Option String) : Option String :=
  if (splitSubjectBody m).2 = ("") then n
  else if optTruthy (getNoteFromBody (some ((splitSubjectBody m).2))) then
    getNoteFromBody (some ((splitSubjectBody m).2))
  else n

/-! ### The pull-request follow-up loop (`getNotes`, lines 437-456)

The remote metadata service and its cache are external collaborators and are
modelled as an oracle from (owner, repo, number) to an optional title/body
pair; `none` covers both `!prData` and `!prData.data`. -/

structure PrData where
  title : String
  body : String

def PrOracle := String → String → PrNum → Option PrData

/-- Result of one iteration of the `while (pr && !commit.note)` body. -/
inductive LoopRes where
  | done (c : Commit)
  | more (c : Commit) (pr : Pr)
  | err
deriving DecidableEq

/-- Lines 446-454, after `commit.note = getNoteFromBody(prData.data.body)`
has been assigned: break on a truthy note, otherwise re-parse the pull
request's title and body and continue only with a changed pull request.
`err` models a thrown exception (from `parseCommitMessage` or from reading
`.number` of a cleared `commit.pr`). -/
def scrapeStepTail (title body : String) (pr : Pr) (c1 : Commit) : LoopRes :=
  if optTruthy c1.note then .done c1
  else
    match parseCommitMessage (title ++ ("\n\n") ++ body) pr.owner pr.repo c1 with
    | none => .err
    | some c2 =>
      match c2.pr with
      | none => .err
      | some p2 => if prNumEqJS pr.number p2.number then .done c2 else .more c2 p2

/-- One iteration of the loop body (lines 441-454), entered with `pr` set and
`commit.note` falsy. -/
def scrapeStep (oracle : PrOracle) (c : Commit) (pr : Pr) : LoopRes :=
  match oracle pr.owner pr.repo pr.number with
  | none => .done c
  | some d =>
    scrapeStepTail d.title d.body pr { c with note := getNoteFromBody (some d.body) }

/-- Outcome of running the loop with bounded fuel. -/
inductive RunRes where
  | finished (c : Commit)
  | threw
  | fuelOut
deriving DecidableEq

/-- The `while (pr && !commit.note)` loop, with `fuel` bounding the number of
iterations.  `fuelOut` means the loop was still running after `fuel`
iterations; the loop terminates on an input iff some fuel avoids it. -/
def scrapeRun (oracle : PrOracle) : Nat → Commit → Option Pr → RunRes
  | _, c, none => .finished c
  | 0, c, some _ => if optTruthy c.note then .finished c else .fuelOut
  | n + 1, c, some pr =>
    if optTruthy c.note then .finished c
    else
      match scrapeStep oracle c pr with
      | .done c1 => .finished c1
      | .err => .threw
      | .more c1 p1 => scrapeRun oracle n c1 (some p1)

/-! ### Pool operations of `getNotes` (lines 416-461) -/

/-- Set `note = NO_NOTES` on one record. -/
def markNoNotes (c : Commit) : Commit := { c with note := some NO_NOTES }

/-- In-place update of the element at one index. -/
def modifyAt : List Commit → Nat → (Commit → Commit) → List Commit
  | [], _, _ => []
  | c :: cs, 0, f => f c :: cs
  | c :: cs, n + 1, f => c :: modifyAt cs n f

/-- Index of the first commit whose `hash` strictly equals the given string
(`pool.commits.find(commit => commit.hash === revertHash)`, line 426),
computed over the list of `hash` fields. -/
def findIdxFrom : List (Option String) → String → Option Nat
  | [], _ => none
  | h :: hs, x => if h = some x then some 0 else (findIdxFrom hs x).map (fun i => i + 1)

/-- Line 417: drop commits whose hash is already processed
(`Set.prototype.has` on `commit.hash`). -/
def removeProcessed (cs : List Commit) (ph : List (Option String)) : List Commit :=
  cs.filter (fun c => ! ph.contains c.hash)

/-- One step of the cancel-out loop (lines 420-435) at iteration index `k`:
if the current commit has a `revertHash` and some commit in the (current)
pool carries that hash, mark both notes and add both hashes. -/
def cancelStepK (st : List Commit × List (Option String)) (k : Nat) :
    List Commit × List (Option String) :=
  match st.1[k]? with
  | none => st
  | some c =>
    match c.revertHash with
    | none => st
    | some rh =>
      match findIdxFrom (st.1.map (fun x => x.hash)) rh with
      | none => st
      | some i =>
        (modifyAt (modifyAt st.1 k markNoNotes) i markNoNotes,
         st.2 ++ [c.hash, some rh])

/-- Run the cancel-out loop from index `k` for `n` more iterations. -/
def cancelAux : Nat → Nat → (List Commit × List (Option String)) →
    List Commit × List (Option String)
  | 0, _, st => st
  | n + 1, k, st => cancelAux n (k + 1) (cancelStepK st k)

/-- The whole `for (const commit of pool.commits)` cancel-out pass: the
iteration visits each index once (mutations never change the length). -/
def cancelPass (st : List Commit × List (Option String)) :
    List Commit × List (Option String) :=
  cancelAux st.1.length 0 st

/-- The final note filter (line 460): `commit.note !== 'No notes'`. -/
def noteKeep (c : Commit) : Bool := c.note ≠ some NO_NOTES

def filterNoNotes (cs : List Commit) : List Commit := cs.filter noteKeep

/-! ### The dependency-inclusion gate (lines 406-414)

The `semver` npm package is an external collaborator; its `valid`/`major`
are modelled from the spec.  Modelled from the spec: "valid semantic versions
with the same major version" — a version is `[v]MAJOR.MINOR.PATCH` with
numeric parts (no leading zeros), optionally followed by a `-prerelease`
or `+build` suffix, and `major` is the first numeric part. -/

/-- A semver numeric identifier: digits without leading zeros. -/
def semverNumPart (l : List Char) : Option (Nat × List Char) :=
  match digitRun l with
  | none => none
  | some (ds, rest) =>
    match ds with
    | ['0'] => some (0, rest)
    | '0' :: _ => none
    | _ => some (toNatDigits (String.mk ds), rest)

/-- Characters allowed in prerelease/build identifiers. -/
def isIdentCh (c : Char) : Bool := isWordCh c || c = '-' || c = '.'

/-- Modelled from the spec: `semver.valid`-style parse of
`[v]MAJOR.MINOR.PATCH[-pre][+build]`, returning the three numeric parts. -/
def semverParse (s : String) : Option (Nat × Nat × Nat) :=
  let l := match s.data with
    | 'v' :: rest => rest
    | l => l
  match semverNumPart l with
  | none => none
  | some (ma, r1) =>
    match r1 with
    | '.' :: r2 =>
      (match semverNumPart r2 with
       | none => none
       | some (mi, r3) =>
         match r3 with
         | '.' :: r4 =>
           (match semverNumPart r4 with
            | none => none
            | some (pa, r5) =>
              match r5 with
              | [] => some (ma, mi, pa)
              | '-' :: r6 => if ! r6.isEmpty && r6.all isIdentCh then some (ma, mi, pa) else none
              | '+' :: r6 => if ! r6.isEmpty && r6.all isIdentCh then some (ma, mi, pa) else none
              | _ => none)
         | _ => none)
    | _ => none

/-- Modelled from the spec: `semver.major`. -/
def semverMajor (s : String) : Nat :=
  match semverParse s with
  | some v => v.1
  | none => 0

/-- Lines 408-410: `includeDeps`. -/
def includeDepsB (fromRef toRef : String) : Bool :=
  (semverParse fromRef).isSome && (semverParse toRef).isSome &&
  semverMajor fromRef = semverMajor toRef

/-- Lines 403-414 as a pure data flow: the pool commits after the electron
walk and the conditional dependency walk. -/
def poolAfterDeps (electronCommits depCommits : List Commit) (fromRef toRef : String) :
    List Commit :=
  if includeDepsB fromRef toRef then electronCommits ++ depCommits else electronCommits

/-! ### The renderer (lines 499-590) -/

/-- Rendered note text and link of one commit (the result of
`renderCommit`). -/
structure Rendered where
  note : String
  link : String
deriving DecidableEq

/-- A JavaScript template literal renders `undefined` as the string
`"undefined"`. -/
def jsTpl : Option String → String
  | none => "undefined"
  | some s => s

/-- `${pr.number}` for either representation. -/
def prNumStr : PrNum → String
  | .int n => Nat.repr n
  | .str s => s

/-- The `commonVerbs` table (lines 510-527), in object-literal order. -/
def commonVerbs : List (String × List String) :=
  [(("Added"), [("Add")]), (("Backported"), [("Backport")]), (("Cleaned"), [("Clean")]),
   (("Disabled"), [("Disable")]), (("Ensured"), [("Ensure")]), (("Exported"), [("Export")]),
   (("Fixed"), [("Fix"), ("Fixes")]), (("Handled"), [("Handle")]),
   (("Improved"), [("Improve")]), (("Made"), [("Make")]), (("Removed"), [("Remove")]),
   (("Repaired"), [("Repair")]), (("Reverted"), [("Revert")]), (("Stopped"), [("Stop")]),
   (("Updated"), [("Update")]), (("Upgraded"), [("Upgrade")])]

/-- Lines 528-535: normalize a leading present-tense verb. -/
def applyVerbs (note0 : String) : String :=
  commonVerbs.foldl
    (fun note kv =>
      kv.2.foldl
        (fun note v =>
          let s := v ++ (" ")
          if startsL s.data note.data then
            kv.1 ++ (" ") ++ String.mk (note.data.drop s.data.length)
          else note)
        note)
    note0

def endsWithDotB (s : String) : Bool :=
  match s.data.getLast? with
  | some c => c = '.'
  | none => false

/-- `renderCommit` (lines 499-550): cleaned display text and markdown link.
`none` models the TypeError when both `note` and `subject` are absent. -/
def renderCommit (c : Commit) : Option Rendered :=
  match (match c.note with
         | some s => if s ≠ ("") then some s else c.subject
         | none => c.subject) with
  | none => none
  | some raw =>
    let n0 := trimJS raw
    let note :=
      match n0.data with
      | [] => n0
      | ch :: rest =>
        let n1 := String.mk (upperC ch :: rest)
        let n2 := if ! endsWithDotB n1 then n1 ++ (".") else n1
        applyVerbs n2
    let link :=
      match c.originalPr with
      | none =>
        ("https://github.com/") ++ jsTpl c.owner ++ ("/") ++ jsTpl c.repo ++
        ("/commit/") ++ jsTpl c.hash
      | some p =>
        if p.owner = ("electron") && p.repo = ("electron") then
          ("#") ++ prNumStr p.number
        else
          ("[") ++ p.owner ++ ("/") ++ p.repo ++ (":") ++ prNumStr p.number ++
          ("](https://github.com/") ++ p.owner ++ ("/") ++ p.repo ++ ("/pull/") ++
          prNumStr p.number ++ (")")
    some { note := note, link := link }

/-- Render every commit of a section; `none` if any would throw. -/
def renderAll : List Commit → Option (List Rendered)
  | [] => some []
  | c :: cs =>
    match renderCommit c with
    | none => none
    | some r => (renderAll cs).map (fun rs => r :: rs)

/-- `Map.prototype.set`-style grouping (lines 559-566): append the link to an
existing key's list or add the key at the end. -/
def insertLink : List (String × List String) → Rendered → List (String × List String)
  | [], r => [(r.note, [r.link])]
  | (k, ls) :: rest, r =>
    if k = r.note then (k, ls ++ [r.link]) :: rest else (k, ls) :: insertLink rest r

/-- The note-to-links map of a section, as an insertion-ordered association
list. -/
def groupRendered (rs : List Rendered) : List (String × List String) :=
  rs.foldl insertLink []

/-- Sorted insertion, the building block of `sortStr`. -/
def insertSorted (x : String) : List String → List String
  | [] => [x]
  | y :: ys => if strLeB x y then x :: y :: ys else y :: insertSorted x ys

/-- `Array.prototype.sort()` on strings (default code-unit comparator):
modelled as insertion sort, which produces a sequence sorted under the same
comparator. -/
def sortStr (l : List String) : List String := l.foldr insertSorted []

/-- Line 569: one bullet line. -/
def fmtLine (k : String) (links : List String) : String :=
  (" * ") ++ k ++ (" ") ++ joinComma (sortStr links) ++ ("\n")

/-- The bullet lines of one (non-documentation) section, in emitted order
(lines 555-571): grouped, formatted and sorted. -/
def renderSectionLines (cs : List Commit) : Option (List String) :=
  match renderAll cs with
  | none => none
  | some rs => some (sortStr ((groupRendered rs).map (fun kv => fmtLine kv.1 kv.2)))

/-! ### Concrete fixtures and specification-side definitions used by the
theorems below -/

def c1SeedCommit : Commit :=
  { emptyCommit with
    originalSubject := some ("old"),
    originalPr := some { owner := ("e"), repo := ("e"), number := .int 1 } }

def prA : Pr := { owner := ("electron"), repo := ("electron"), number := .int 5 }

def prB : Pr := { owner := ("electron"), repo := ("electron"), number := .int 7 }

/-- A metadata oracle in which pull requests 5 and 7 reference each other
via `Backport of #N` and neither carries a `Notes:` paragraph. -/
def cycOracle : PrOracle := fun _ _ num =>
  if num = PrNum.int 5 then some { title := ("Backport of #7"), body := ("x") }
  else if num = PrNum.int 7 then some { title := ("Backport of #5"), body := ("x") }
  else none

/-- A commit whose pull request is 5, with no note. -/
def cCyc0 : Commit :=
  { originalSubject := some ("t"), pr := some prA, originalPr := some prA }

/-- The loop state after an odd number of iterations from `cCyc0`. -/
def cCyc1 : Commit :=
  { originalSubject := some ("t"), subject := some ("Backport of #7"),
    body := some ("x"), pr := some prB, originalPr := some prA }

/-- The loop state after an even (positive) number of iterations. -/
def cCyc2 : Commit :=
  { originalSubject := some ("t"), subject := some ("Backport of #5"),
    body := some ("x"), pr := some prA, originalPr := some prA }

/-- The no-notes spellings actually recognised by the two sentinel regexes:
case varies only in the initial letter of each word. -/
def isNoNotesSpelling (s : String) : Bool := (noNotesTokens ++ noneTokens).contains s

/-- Claim C5, amended, as a specification-side function: find the first
`Notes: `-prefixed trimmed paragraph (`none` when there is none); after
prefix/placeholder stripping, first-newline replacement and trimming, return
the sentinel when the text is one of the recognised no-notes spellings
(`[Nn]o[ _-][Nn]otes` / `[Nn]one`, optional trailing period — *not* arbitrary
case variation), otherwise the cleaned text. -/
def noteFromBodySpec (b : String) : Option String :=
  if b = ("") then none
  else
    match notesParaOf b with
    | none => none
    | some p =>
      let t := cleanNotePara p
      if t = ("") then some t
      else if isNoNotesSpelling t then some NO_NOTES
      else some t

/-- First-occurrence deduplication of the rendered note texts — the keys of
the JavaScript `Map` in insertion order. -/
def dedupKeys (ks : List String) : List String :=
  ks.foldl (fun acc k => if acc.contains k then acc else acc ++ [k]) []

/-- All links of the commits whose rendered text is `k`, in order. -/
def linksOf (rs : List Rendered) (k : String) : List String :=
  (rs.filter (fun r => r.note = k)).map (fun r => r.link)

/-- First-match lookup in the association list. -/
def assocGet : List (String × List String) → String → Option (List String)
  | [], _ => none
  | (k, ls) :: rest, x => if k = x then some ls else assocGet rest x

/-! ## Theorems -/

/-! ### Characterizations of the parser stages

Each stage is rewritten as a single record literal whose fields carry the
stage's conditionals, so that field projections of a staged pipeline reduce
mechanically.  The `…_eq` lemmas additionally characterize the throwing
stages: success depends only on the message/owner/repo, never on the commit
record. -/

theorem setPullRequest_eq (c : Commit) (o r : String) (n : PrNum) :
    setPullRequest c o r n =
      if sprOk o r n then some (setPullRequestT c o r n, aliasFlag c) else none := by
  unfold setPullRequest setPullRequestT sprOk aliasFlag
  by_cases h : (o = ("") || r = ("") || ! prNumTruthy n) = true
  · rw [if_pos h, h]
    rfl
  · rw [if_neg h]
    rw [Bool.not_eq_true] at h
    rw [h]
    simp only [Bool.not_false, if_true]
    by_cases h1 : c.originalPr = none
    · by_cases h2 : c.pr = none
      · simp [h1, h2]
      · simp [h1, h2]
    · simp [h1]

theorem setPullRequestT_eq (c : Commit) (o r : String) (n : PrNum) :
    setPullRequestT c o r n =
      { c with
        pr := some { owner := o, repo := r, number := n, branch := none },
        originalPr :=
          if c.originalPr = none then
            (if c.pr = none then
              some { owner := o, repo := r, number := n, branch := none }
             else c.pr)
          else c.originalPr } := by
  unfold setPullRequestT
  by_cases h1 : c.originalPr = none
  · by_cases h2 : c.pr = none
    · simp [h1, h2]
    · simp [h1, h2]
  · simp [h1]

theorem stOrigSubject_char (st : PState) :
    stOrigSubject st =
      { subject := st.subject,
        commit := { st.commit with
          originalSubject :=
            if optTruthy st.commit.originalSubject then st.commit.originalSubject
            else some st.subject } } := by
  unfold stOrigSubject
  by_cases h : optTruthy st.commit.originalSubject <;> simp [h]

theorem stBody_char (b : String) (st : PState) :
    stBody b st =
      { subject := st.subject,
        commit := { st.commit with
          body := (if b = ("") then st.commit.body else some b),
          note :=
            (if b = ("") then st.commit.note
             else if optTruthy (getNoteFromBody (some b)) then getNoteFromBody (some b)
             else st.commit.note) } } := by
  unfold stBody
  by_cases hb : b = ("")
  · simp [hb]
  · by_cases hn : optTruthy (getNoteFromBody (some b)) <;> simp [hb, hn]

theorem stPrSuffixT_char (o r : String) (st : PState) :
    stPrSuffixT o r st =
      { subject :=
          (match matchPrSuffix st.subject with
           | none => st.subject
           | some (rest, _) => rest),
        commit := { st.commit with
          pr :=
            (match matchPrSuffix st.subject with
             | none => st.commit.pr
             | some (_, ds) =>
               some { owner := o, repo := r, number := .int (toNatDigits ds),
                      branch := none }),
          originalPr :=
            (match matchPrSuffix st.subject with
             | none => st.commit.originalPr
             | some (_, ds) =>
               if st.commit.originalPr = none then
                 (if st.commit.pr = none then
                   some { owner := o, repo := r, number := .int (toNatDigits ds),
                          branch := none }
                  else st.commit.pr)
               else st.commit.originalPr) } } := by
  unfold stPrSuffixT
  rcases h : matchPrSuffix st.subject with _ | ⟨rest, ds⟩
  · simp
  · simp [setPullRequestT_eq]

theorem stSemantic_char (st : PState) :
    stSemantic st =
      { subject :=
          (match matchSemantic st.subject with
           | none => st.subject
           | some (_, rest) => rest),
        commit := { st.commit with
          type :=
            (match matchSemantic st.subject with
             | none => st.commit.type
             | some (w, _) => some (lowerJS w)) } } := by
  unfold stSemantic
  rcases h : matchSemantic st.subject with _ | ⟨w, rest⟩
  · simp
  · simp

theorem stMergeT_char (o r : String) (st : PState) :
    stMergeT o r st =
      { subject := st.subject,
        commit := { st.commit with
          pr :=
            (match matchMergePr st.subject with
             | none => st.commit.pr
             | some (ds, br) =>
               some { owner := o, repo := r, number := .int (toNatDigits ds),
                      branch := some (trimJS br) }),
          originalPr :=
            (match matchMergePr st.subject with
             | none => st.commit.originalPr
             | some (ds, br) =>
               if st.commit.originalPr = none then
                 (if st.commit.pr = none then
                   some { owner := o, repo := r, number := .int (toNatDigits ds),
                          branch := some (trimJS br) }
                  else st.commit.pr)
               else st.commit.originalPr) } } := by
  unfold stMergeT
  rcases h : matchMergePr st.subject with _ | ⟨ds, br⟩
  · simp
  · unfold aliasFlag
    by_cases h1 : st.commit.originalPr = none
    · by_cases h2 : st.commit.pr = none
      · simp [setPullRequestT_eq, h1, h2]
      · simp [setPullRequestT_eq, h1, h2]
    · simp [setPullRequestT_eq, h1]

theorem stBackportOfT_char (msg o r : String) (st : PState) :
    stBackportOfT msg o r st =
      { subject := st.subject,
        commit := { st.commit with
          pr :=
            (match matchBackportOf msg with
             | none => st.commit.pr
             | some ds =>
               some { owner := o, repo := r, number := .int (toNatDigits ds),
                      branch := none }),
          originalPr :=
            (match matchBackportOf msg with
             | none => st.commit.originalPr
             | some ds =>
               if st.commit.originalPr = none then
                 (if st.commit.pr = none then
                   some { owner := o, repo := r, number := .int (toNatDigits ds),
                          branch := none }
                  else st.commit.pr)
               else st.commit.originalPr) } } := by
  unfold stBackportOfT
  rcases h : matchBackportOf msg with _ | ds
  · simp
  · simp [setPullRequestT_eq]

theorem stKeyword_char (st : PState) :
    stKeyword st =
      { subject := st.subject,
        commit := { st.commit with
          issueNumber :=
            (match matchCloseKeyword st.subject with
             | none => st.commit.issueNumber
             | some ds => some (toNatDigits ds)),
          type :=
            (match matchCloseKeyword st.subject with
             | none => st.commit.type
             | some _ =>
               if optTruthy st.commit.type then st.commit.type else some ("fix")) } } := by
  unfold stKeyword
  rcases h : matchCloseKeyword st.subject with _ | ds
  · simp
  · by_cases ht : optTruthy st.commit.type <;> simp [ht]

theorem stMdFixes_char (msg : String) (st : PState) :
    stMdFixes msg st =
      { subject := st.subject,
        commit := { st.commit with
          issueNumber :=
            (if numTruthy st.commit.issueNumber then st.commit.issueNumber
             else match matchMdFixes msg with
             | none => st.commit.issueNumber
             | some ds => some (toNatDigits ds)),
          pr :=
            (if numTruthy st.commit.issueNumber then st.commit.pr
             else match matchMdFixes msg with
             | none => st.commit.pr
             | some ds =>
               match st.commit.pr with
               | none => none
               | some p =>
                 if prNumEqJS p.number (.int (toNatDigits ds)) then none else some p),
          originalPr :=
            (if numTruthy st.commit.issueNumber then st.commit.originalPr
             else match matchMdFixes msg with
             | none => st.commit.originalPr
             | some ds =>
               match st.commit.originalPr with
               | none => none
               | some p =>
                 if prNumEqJS p.number (.int (toNatDigits ds)) then none else some p),
          type :=
            (if numTruthy st.commit.issueNumber then st.commit.type
             else match matchMdFixes msg with
             | none => st.commit.type
             | some _ =>
               if optTruthy st.commit.type then st.commit.type else some ("fix")) } } := by
  unfold stMdFixes
  by_cases hn : numTruthy st.commit.issueNumber
  · simp [hn]
  · rcases h : matchMdFixes msg with _ | ds
    · simp [hn]
    · rcases hp : st.commit.pr with _ | p
      · rcases hq : st.commit.originalPr with _ | q
        · by_cases ht : optTruthy st.commit.type <;> simp [hn, hp, hq, ht]
        · by_cases ht : optTruthy st.commit.type <;>
            by_cases he2 : prNumEqJS q.number (.int (toNatDigits ds)) = true <;>
              simp [hn, hp, hq, ht, he2]
      · rcases hq : st.commit.originalPr with _ | q
        · by_cases ht : optTruthy st.commit.type <;>
            by_cases he1 : prNumEqJS p.number (.int (toNatDigits ds)) = true <;>
              simp [hn, hp, hq, ht, he1]
        · by_cases ht : optTruthy st.commit.type <;>
            by_cases he1 : prNumEqJS p.number (.int (toNatDigits ds)) = true <;>
              by_cases he2 : prNumEqJS q.number (.int (toNatDigits ds)) = true <;>
                simp [hn, hp, hq, ht, he1, he2]

theorem stBreaking_char (msg : String) (st : PState) :
    stBreaking msg st =
      { subject := st.subject,
        commit := { st.commit with
          type :=
            if hasBreakingPara msg then some ("breaking-change")
            else st.commit.type } } := by
  unfold stBreaking
  by_cases h : hasBreakingPara msg <;> simp [h]

theorem stRevert_char (body : String) (st : PState) :
    stRevert body st =
      { subject := st.subject,
        commit := { st.commit with
          revertHash :=
            (match matchRevert body with
             | none => st.commit.revertHash
             | some h => some h) } } := by
  unfold stRevert
  rcases h : matchRevert body with _ | hsh
  · simp
  · simp

theorem stManualBackportT_char (msg : String) (st : PState) :
    stManualBackportT msg st =
      { subject := st.subject,
        commit := { st.commit with
          pr :=
            (match manualVal msg with
             | none => st.commit.pr
             | some (o, r, ds) =>
               some { owner := o, repo := r, number := .str ds, branch := none }),
          originalPr :=
            (match manualVal msg with
             | none => st.commit.originalPr
             | some (o, r, ds) =>
               if st.commit.originalPr = none then
                 (if st.commit.pr = none then
                   some { owner := o, repo := r, number := .str ds, branch := none }
                  else st.commit.pr)
               else st.commit.originalPr) } } := by
  unfold stManualBackportT
  rcases h : manualVal msg with _ | ⟨o, r, ds⟩
  · simp
  · simp [setPullRequestT_eq]

theorem stAckportUrlT_char (msg : String) (st : PState) :
    stAckportUrlT msg st =
      { subject := st.subject,
        commit := { st.commit with
          pr :=
            (match ackportVal msg with
             | none => st.commit.pr
             | some (o, r, ds) =>
               some { owner := o, repo := r, number := .str ds, branch := none }),
          originalPr :=
            (match ackportVal msg with
             | none => st.commit.originalPr
             | some (o, r, ds) =>
               if st.commit.originalPr = none then
                 (if st.commit.pr = none then
                   some { owner := o, repo := r, number := .str ds, branch := none }
                  else st.commit.pr)
               else st.commit.originalPr) } } := by
  unfold stAckportUrlT
  rcases h : ackportVal msg with _ | ⟨o, r, ds⟩
  · simp
  · simp [setPullRequestT_eq]

theorem stLegacy_char (msg : String) (st : PState) :
    stLegacy msg st =
      { subject := st.subject,
        commit := { st.commit with type := legacyType msg st.commit.type } } := by
  unfold stLegacy legacyType
  by_cases hc : (! optTruthy st.commit.type || st.commit.type = some ("chore")) = true
  · rw [if_pos hc, if_pos hc]
    rcases h : matchChoreScope (lowerJS msg) with _ | scope
    · by_cases hf : hasFixWord (lowerJS msg)
      · simp [h, hf]
      · by_cases hd : hasDocsTag (lowerJS msg) <;> simp [h, hf, hd]
    · simp [h]
  · rw [if_neg hc, if_neg hc]

theorem stSubjectFinal_char (st : PState) :
    stSubjectFinal st =
      { subject := st.subject,
        commit := { st.commit with subject := some (trimJS st.subject) } } := rfl

theorem stPrSuffix_eq (o r : String) (st : PState) :
    stPrSuffix o r st =
      if okPr o r st.subject then some (stPrSuffixT o r st) else none := by
  unfold stPrSuffix stPrSuffixT okPr
  rcases h : matchPrSuffix st.subject with _ | ⟨rest, ds⟩
  · simp
  · dsimp only
    rw [setPullRequest_eq]
    by_cases hok : sprOk o r (.int (toNatDigits ds)) = true <;> simp [hok]

theorem stMerge_eq (o r : String) (st : PState) :
    stMerge o r st =
      if okMerge o r st.subject then some (stMergeT o r st) else none := by
  unfold stMerge stMergeT okMerge
  rcases h : matchMergePr st.subject with _ | ⟨ds, br⟩
  · simp
  · dsimp only
    rw [setPullRequest_eq]
    by_cases hok : sprOk o r (.int (toNatDigits ds)) = true <;> simp [hok]

theorem stBackportOf_eq (msg o r : String) (st : PState) :
    stBackportOf msg o r st =
      if okBackportOf msg o r then some (stBackportOfT msg o r st) else none := by
  unfold stBackportOf stBackportOfT okBackportOf
  rcases h : matchBackportOf msg with _ | ds
  · simp
  · dsimp only
    rw [setPullRequest_eq]
    by_cases hok : sprOk o r (.int (toNatDigits ds)) = true <;> simp [hok]

theorem stManualBackport_eq (msg : String) (st : PState) :
    stManualBackport msg st =
      if okManual msg then some (stManualBackportT msg st) else none := by
  unfold stManualBackport stManualBackportT okManual manualVal
  by_cases hb : containsSub (lowerJS msg) ("backport") = true
  · rw [if_pos hb, if_pos hb]
    rcases h : matchOwnerRepoNum msg with _ | ⟨o, r, ds⟩
    · simp
    · dsimp only
      by_cases hf : FOLLOW_REPOS.contains (o ++ ("/") ++ r) = true
      · rw [if_pos hf]
        simp only [if_pos hf]
        rw [setPullRequest_eq]
        by_cases hok : sprOk o r (.str ds) = true <;> simp [hok]
      · rw [if_neg hf]
        simp only [if_neg hf]
        simp
  · rw [if_neg hb, if_neg hb]
    simp

theorem stAckportUrl_eq (msg : String) (st : PState) :
    stAckportUrl msg st =
      if okAckport msg then some (stAckportUrlT msg st) else none := by
  unfold stAckportUrl stAckportUrlT okAckport ackportVal
  by_cases hb : containsSub msg ("ackport") = true
  · rw [if_pos hb, if_pos hb]
    rcases h : matchPullUrl msg with _ | ⟨o, r, ds⟩
    · simp
    · dsimp only
      by_cases hf : FOLLOW_REPOS.contains (o ++ ("/") ++ r) = true
      · rw [if_pos hf]
        simp only [if_pos hf]
        rw [setPullRequest_eq]
        by_cases hok : sprOk o r (.str ds) = true <;> simp [hok]
      · rw [if_neg hf]
        simp only [if_neg hf]
        simp
  · rw [if_neg hb, if_neg hb]
    simp

/-- The workhorse characterization of the parser: success depends only on
the message/owner/repo (`parseOk`), and on success the result is the total
stage pipeline `parseTotal`. -/
theorem parse_eq (msg o r : String) (c : Commit) :
    parseCommitMessage msg o r c =
      if parseOk msg o r then some (parseTotal msg o r c) else none := by
  have e1 : (stBody (splitSubjectBody msg).2
      (stOrigSubject { subject := (splitSubjectBody msg).1, commit := c })).subject =
      (splitSubjectBody msg).1 := by
    rw [stBody_char, stOrigSubject_char]
  unfold parseCommitMessage parseCore
  rw [stPrSuffix_eq, e1]
  by_cases h1 : okPr o r (splitSubjectBody msg).1 = true
  · rw [if_pos h1]
    have e2 : (stSemantic (stPrSuffixT o r (stBody (splitSubjectBody msg).2
        (stOrigSubject { subject := (splitSubjectBody msg).1, commit := c })))).subject =
        subjAfterSem msg := by
      rw [stSemantic_char, stPrSuffixT_char, stBody_char, stOrigSubject_char]
      unfold subjAfterSem subjAfterPr
      rfl
    show (match stMerge o r (stSemantic (stPrSuffixT o r _)) with
      | none => none
      | some st2 => _) = _
    rw [stMerge_eq, e2]
    by_cases h2 : okMerge o r (subjAfterSem msg) = true
    · rw [if_pos h2]
      show (match stBackportOf msg o r _ with
        | none => none
        | some st3 => _) = _
      rw [stBackportOf_eq]
      by_cases h3 : okBackportOf msg o r = true
      · rw [if_pos h3]
        show parseTail msg (splitSubjectBody msg).2 _ = _
        unfold parseTail
        rw [stManualBackport_eq]
        by_cases h4 : okManual msg = true
        · rw [if_pos h4]
          show (match stAckportUrl msg _ with
            | none => none
            | some st2 => _) = _
          rw [stAckportUrl_eq]
          by_cases h5 : okAckport msg = true
          · rw [if_pos h5]
            have hok : parseOk msg o r = true := by
              unfold parseOk
              rw [h1, h2, h3, h4, h5]
              rfl
            rw [if_pos hok]
            rfl
          · rw [if_neg h5]
            have hok : parseOk msg o r = false := by
              unfold parseOk
              rw [Bool.not_eq_true] at h5
              rw [h5]
              simp
            rw [hok]
            rfl
        · rw [if_neg h4]
          have hok : parseOk msg o r = false := by
            unfold parseOk
            rw [Bool.not_eq_true] at h4
            rw [h4]
            simp
          rw [hok]
          rfl
      · rw [if_neg h3]
        have hok : parseOk msg o r = false := by
          unfold parseOk
          rw [Bool.not_eq_true] at h3
          rw [h3]
          simp
        rw [hok]
        rfl
    · rw [if_neg h2]
      have hok : parseOk msg o r = false := by
        unfold parseOk
        rw [Bool.not_eq_true] at h2
        rw [h2]
        simp
      rw [hok]
      rfl
  · rw [if_neg h1]
    have hok : parseOk msg o r = false := by
      unfold parseOk
      rw [Bool.not_eq_true] at h1
      rw [h1]
      simp
    rw [hok]
    rfl

/-! ### C7: a `BREAKING CHANGE` paragraph forces the type -/

theorem legacyType_breaking (msg : String) :
    legacyType msg (some ("breaking-change")) = some ("breaking-change") := by
  unfold legacyType
  rw [if_neg]
  decide

/-- Claim C7: whenever a blank-line-delimited paragraph of the message
starts with `BREAKING CHANGE`, any successful parse leaves the record with
`type = 'breaking-change'`, whatever other type-assigning rule also fired:
the override (lines 177-183) runs after every other type assignment except
the legacy fallback, and the legacy fallback's guard skips any type other
than unset or `'chore'`. -/
theorem breaking_change_overrides_type (msg o r : String) (c c' : Commit)
    (hbr : hasBreakingPara msg = true)
    (h : parseCommitMessage msg o r c = some c') :
    c'.type = some ("breaking-change") := by
  rw [parse_eq] at h
  by_cases hok : parseOk msg o r = true
  · rw [if_pos hok] at h
    have hc : parseTotal msg o r c = c' := Option.some.inj h
    subst hc
    unfold parseTotal
    rw [stSubjectFinal_char, stLegacy_char, stAckportUrlT_char, stManualBackportT_char,
      stRevert_char, stBreaking_char]
    simp only [hbr, if_true]
    exact legacyType_breaking msg
  · rw [if_neg hok] at h
    exact absurd h (by simp)

/-- Witness for the breaking-change theorem, at
`feat: x` + `BREAKING CHANGE: y`. -/
theorem breaking_change_witness :
    (parseTotal ("feat: x\n\nBREAKING CHANGE: y") ("electron") ("electron")
      emptyCommit).type = some ("breaking-change") :=
  breaking_change_overrides_type ("feat: x\n\nBREAKING CHANGE: y") ("electron")
    ("electron") emptyCommit
    (parseTotal ("feat: x\n\nBREAKING CHANGE: y") ("electron") ("electron") emptyCommit)
    (by decide) (by rw [parse_eq]; decide)

/-! ### C1, amended: preservation of the provenance fields -/

theorem op_prSuffixT (o r : String) (st : PState)
    (h : st.commit.originalPr ≠ none) :
    (stPrSuffixT o r st).commit.originalPr = st.commit.originalPr := by
  rw [stPrSuffixT_char]
  dsimp only
  rcases hm : matchPrSuffix st.subject with _ | ⟨a, b⟩
  · rfl
  · dsimp only
    rw [if_neg h]

theorem op_mergeT (o r : String) (st : PState)
    (h : st.commit.originalPr ≠ none) :
    (stMergeT o r st).commit.originalPr = st.commit.originalPr := by
  rw [stMergeT_char]
  dsimp only
  rcases hm : matchMergePr st.subject with _ | ⟨a, b⟩
  · rfl
  · dsimp only
    rw [if_neg h]

theorem op_backportOfT (msg o r : String) (st : PState)
    (h : st.commit.originalPr ≠ none) :
    (stBackportOfT msg o r st).commit.originalPr = st.commit.originalPr := by
  rw [stBackportOfT_char]
  dsimp only
  rcases hm : matchBackportOf msg with _ | a
  · rfl
  · dsimp only
    rw [if_neg h]

theorem op_manualT (msg : String) (st : PState)
    (h : st.commit.originalPr ≠ none) :
    (stManualBackportT msg st).commit.originalPr = st.commit.originalPr := by
  rw [stManualBackportT_char]
  dsimp only
  rcases hm : manualVal msg with _ | ⟨a, b, d⟩
  · rfl
  · dsimp only
    rw [if_neg h]

theorem op_ackportT (msg : String) (st : PState)
    (h : st.commit.originalPr ≠ none) :
    (stAckportUrlT msg st).commit.originalPr = st.commit.originalPr := by
  rw [stAckportUrlT_char]
  dsimp only
  rcases hm : ackportVal msg with _ | ⟨a, b, d⟩
  · rfl
  · dsimp only
    rw [if_neg h]

theorem op_mdFixes (msg : String) (st : PState) (hmd : matchMdFixes msg = none) :
    (stMdFixes msg st).commit.originalPr = st.commit.originalPr := by
  rw [stMdFixes_char]
  dsimp only
  rw [hmd]
  dsimp only
  exact ite_self _

theorem op_origSubject (st : PState) :
    (stOrigSubject st).commit.originalPr = st.commit.originalPr := by
  rw [stOrigSubject_char]

theorem op_body (b : String) (st : PState) :
    (stBody b st).commit.originalPr = st.commit.originalPr := by
  rw [stBody_char]

theorem op_semantic (st : PState) :
    (stSemantic st).commit.originalPr = st.commit.originalPr := by
  rw [stSemantic_char]

theorem op_keyword (st : PState) :
    (stKeyword st).commit.originalPr = st.commit.originalPr := by
  rw [stKeyword_char]

theorem op_breaking (msg : String) (st : PState) :
    (stBreaking msg st).commit.originalPr = st.commit.originalPr := by
  rw [stBreaking_char]

theorem op_revert (b : String) (st : PState) :
    (stRevert b st).commit.originalPr = st.commit.originalPr := by
  rw [stRevert_char]

theorem op_legacy (msg : String) (st : PState) :
    (stLegacy msg st).commit.originalPr = st.commit.originalPr := by
  rw [stLegacy_char]

theorem op_subjectFinal (st : PState) :
    (stSubjectFinal st).commit.originalPr = st.commit.originalPr := by
  rw [stSubjectFinal_char]

theorem os_origSubject (st : PState) (h : optTruthy st.commit.originalSubject = true) :
    (stOrigSubject st).commit.originalSubject = st.commit.originalSubject := by
  rw [stOrigSubject_char]
  dsimp only
  rw [if_pos h]

theorem os_body (b : String) (st : PState) :
    (stBody b st).commit.originalSubject = st.commit.originalSubject := by
  rw [stBody_char]

theorem os_prSuffixT (o r : String) (st : PState) :
    (stPrSuffixT o r st).commit.originalSubject = st.commit.originalSubject := by
  rw [stPrSuffixT_char]

theorem os_semantic (st : PState) :
    (stSemantic st).commit.originalSubject = st.commit.originalSubject := by
  rw [stSemantic_char]

theorem os_mergeT (o r : String) (st : PState) :
    (stMergeT o r st).commit.originalSubject = st.commit.originalSubject := by
  rw [stMergeT_char]

theorem os_backportOfT (msg o r : String) (st : PState) :
    (stBackportOfT msg o r st).commit.originalSubject = st.commit.originalSubject := by
  rw [stBackportOfT_char]

theorem os_keyword (st : PState) :
    (stKeyword st).commit.originalSubject = st.commit.originalSubject := by
  rw [stKeyword_char]

theorem os_mdFixes (msg : String) (st : PState) :
    (stMdFixes msg st).commit.originalSubject = st.commit.originalSubject := by
  rw [stMdFixes_char]

theorem os_breaking (msg : String) (st : PState) :
    (stBreaking msg st).commit.originalSubject = st.commit.originalSubject := by
  rw [stBreaking_char]

theorem os_revert (b : String) (st : PState) :
    (stRevert b st).commit.originalSubject = st.commit.originalSubject := by
  rw [stRevert_char]

theorem os_manualT (msg : String) (st : PState) :
    (stManualBackportT msg st).commit.originalSubject = st.commit.originalSubject := by
  rw [stManualBackportT_char]

theorem os_ackportT (msg : String) (st : PState) :
    (stAckportUrlT msg st).commit.originalSubject = st.commit.originalSubject := by
  rw [stAckportUrlT_char]

theorem os_legacy (msg : String) (st : PState) :
    (stLegacy msg st).commit.originalSubject = st.commit.originalSubject := by
  rw [stLegacy_char]

theorem os_subjectFinal (st : PState) :
    (stSubjectFinal st).commit.originalSubject = st.commit.originalSubject := by
  rw [stSubjectFinal_char]

/-- The total pipeline never changes a non-empty `originalSubject`: no stage
other than `stOrigSubject` touches the field, and that stage keeps any
truthy value.  No side condition on the message is needed. -/
theorem parseTotal_preserves_originalSubject (msg o r : String) (c : Commit)
    (hos : optTruthy c.originalSubject = true) :
    (parseTotal msg o r c).originalSubject = c.originalSubject := by
  unfold parseTotal
  rw [os_subjectFinal, os_legacy, os_ackportT, os_manualT, os_revert, os_breaking,
    os_mdFixes, os_keyword, os_backportOfT, os_mergeT, os_semantic, os_prSuffixT,
    os_body, os_origSubject _ hos]

/-- The total pipeline preserves a set `originalPr` when the message does not
match the markdown Fixes pattern. -/
theorem parseTotal_preserves_originalPr (msg o r : String) (c : Commit)
    (hop : c.originalPr ≠ none) (hmd : matchMdFixes msg = none) :
    (parseTotal msg o r c).originalPr = c.originalPr := by
  unfold parseTotal
  · generalize hA : stOrigSubject { subject := (splitSubjectBody msg).1, commit := c } = A
    have pA : A.commit.originalPr = c.originalPr := by rw [← hA]; exact op_origSubject _
    generalize hB : stBody (splitSubjectBody msg).2 A = B
    have pB : B.commit.originalPr = c.originalPr := by rw [← hB, op_body, pA]
    generalize hC : stPrSuffixT o r B = C
    have pC : C.commit.originalPr = c.originalPr := by
      rw [← hC, op_prSuffixT _ _ _ (by rw [pB]; exact hop), pB]
    generalize hD : stSemantic C = D
    have pD : D.commit.originalPr = c.originalPr := by rw [← hD, op_semantic, pC]
    generalize hE : stMergeT o r D = E
    have pE : E.commit.originalPr = c.originalPr := by
      rw [← hE, op_mergeT _ _ _ (by rw [pD]; exact hop), pD]
    generalize hF : stBackportOfT msg o r E = F
    have pF : F.commit.originalPr = c.originalPr := by
      rw [← hF, op_backportOfT _ _ _ _ (by rw [pE]; exact hop), pE]
    generalize hG : stKeyword F = G
    have pG : G.commit.originalPr = c.originalPr := by rw [← hG, op_keyword, pF]
    generalize hH : stMdFixes msg G = H
    have pH : H.commit.originalPr = c.originalPr := by rw [← hH, op_mdFixes _ _ hmd, pG]
    generalize hI : stBreaking msg H = I
    have pI : I.commit.originalPr = c.originalPr := by rw [← hI, op_breaking, pH]
    generalize hJ : stRevert (splitSubjectBody msg).2 I = J
    have pJ : J.commit.originalPr = c.originalPr := by rw [← hJ, op_revert, pI]
    generalize hK : stManualBackportT msg J = K
    have pK : K.commit.originalPr = c.originalPr := by
      rw [← hK, op_manualT _ _ (by rw [pJ]; exact hop), pJ]
    generalize hL : stAckportUrlT msg K = L
    have pL : L.commit.originalPr = c.originalPr := by
      rw [← hL, op_ackportT _ _ (by rw [pK]; exact hop), pK]
    generalize hM : stLegacy msg L = M
    have pM : M.commit.originalPr = c.originalPr := by rw [← hM, op_legacy, pL]
    rw [op_subjectFinal, pM]

/-- C1 (amended): in any successful parse, a non-empty `originalSubject` is
never changed, whatever the message; and a non-null `originalPr` is
preserved whenever the message does not match the markdown
`Fixes [#N](...)` pattern. -/
theorem originalFields_preservation (msg o r : String) (c c' : Commit)
    (h : parseCommitMessage msg o r c = some c') :
    (optTruthy c.originalSubject = true → c'.originalSubject = c.originalSubject) ∧
    (c.originalPr ≠ none → matchMdFixes msg = none → c'.originalPr = c.originalPr) := by
  rw [parse_eq] at h
  by_cases hok : parseOk msg o r = true
  · rw [if_pos hok] at h
    have hv := Option.some.inj h
    subst hv
    exact ⟨fun hos => parseTotal_preserves_originalSubject msg o r c hos,
      fun hop hmd => parseTotal_preserves_originalPr msg o r c hop hmd⟩
  · rw [if_neg hok] at h
    exact absurd h (by simp)

theorem originalFields_preservation_witness :
    (parseTotal ("fix: foo (#5)") ("electron") ("electron")
        c1SeedCommit).originalSubject = some ("old") ∧
    (parseTotal ("fix: foo (#5)") ("electron") ("electron")
        c1SeedCommit).originalPr =
      some { owner := ("e"), repo := ("e"), number := .int 1 } :=
  ⟨(originalFields_preservation ("fix: foo (#5)") ("electron") ("electron")
      c1SeedCommit
      (parseTotal ("fix: foo (#5)") ("electron") ("electron") c1SeedCommit)
      (by rw [parse_eq]; decide)).1 (by decide),
   (originalFields_preservation ("fix: foo (#5)") ("electron") ("electron")
      c1SeedCommit
      (parseTotal ("fix: foo (#5)") ("electron") ("electron") c1SeedCommit)
      (by rw [parse_eq]; decide)).2 (by decide) (by decide)⟩

/-! ### C3, amended: the parse pipeline in closed form, and idempotence -/

/-- Every commit field after one run of the total pipeline, in closed form,
for a message that does not match the markdown Fixes pattern. -/
theorem parseTotal_char (m o r : String) (c : Commit) (hmd : matchMdFixes m = none) :
    parseTotal m o r c =
      { c with
        originalSubject := osAfter m c.originalSubject,
        body := bodyAfter m c.body,
        note := noteAfter m c.note,
        pr := prAfter12 m o r c.pr,
        originalPr := qAfter12 m o r c.pr c.originalPr,
        type := tFinal m c.type,
        issueNumber := iAfterKw m c.issueNumber,
        revertHash := rvAfter m c.revertHash,
        subject := some (trimJS (subjAfterSem m)) } := by
  unfold parseTotal
  generalize hA : stOrigSubject { subject := (splitSubjectBody m).1, commit := c } = A
  have hAs : A.subject = (splitSubjectBody m).1 := by rw [← hA, stOrigSubject_char]
  have hAc : A.commit = { c with originalSubject := osAfter m c.originalSubject } := by
    rw [← hA, stOrigSubject_char]; rfl
  generalize hB : stBody (splitSubjectBody m).2 A = B
  have hBs : B.subject = (splitSubjectBody m).1 := by rw [← hB, stBody_char]; exact hAs
  have hBc : B.commit =
      { c with
        originalSubject := osAfter m c.originalSubject,
        body := bodyAfter m c.body,
        note := noteAfter m c.note } := by
    rw [← hB, stBody_char, hAc]; rfl
  generalize hC : stPrSuffixT o r B = C
  have hCs : C.subject = subjAfterPr m := by rw [← hC, stPrSuffixT_char, hBs]; rfl
  have hCc : C.commit =
      { c with
        originalSubject := osAfter m c.originalSubject,
        body := bodyAfter m c.body,
        note := noteAfter m c.note,
        pr := prAfter3 m o r c.pr,
        originalPr := qAfter3 m o r c.pr c.originalPr } := by
    rw [← hC, stPrSuffixT_char, hBc, hBs]; rfl
  generalize hD : stSemantic C = D
  have hDs : D.subject = subjAfterSem m := by rw [← hD, stSemantic_char, hCs]; rfl
  have hDc : D.commit =
      { c with
        originalSubject := osAfter m c.originalSubject,
        body := bodyAfter m c.body,
        note := noteAfter m c.note,
        pr := prAfter3 m o r c.pr,
        originalPr := qAfter3 m o r c.pr c.originalPr,
        type := tAfterSem m c.type } := by
    rw [← hD, stSemantic_char, hCc, hCs]; rfl
  generalize hE : stMergeT o r D = E
  have hEs : E.subject = subjAfterSem m := by rw [← hE, stMergeT_char]; exact hDs
  have hEc : E.commit =
      { c with
        originalSubject := osAfter m c.originalSubject,
        body := bodyAfter m c.body,
        note := noteAfter m c.note,
        pr := prAfter5 m o r c.pr,
        originalPr := qAfter5 m o r c.pr c.originalPr,
        type := tAfterSem m c.type } := by
    rw [← hE, stMergeT_char, hDc, hDs]; rfl
  generalize hF : stBackportOfT m o r E = F
  have hFs : F.subject = subjAfterSem m := by rw [← hF, stBackportOfT_char]; exact hEs
  have hFc : F.commit =
      { c with
        originalSubject := osAfter m c.originalSubject,
        body := bodyAfter m c.body,
        note := noteAfter m c.note,
        pr := prAfter6 m o r c.pr,
        originalPr := qAfter6 m o r c.pr c.originalPr,
        type := tAfterSem m c.type } := by
    rw [← hF, stBackportOfT_char, hEc]; rfl
  generalize hG : stKeyword F = G
  have hGs : G.subject = subjAfterSem m := by rw [← hG, stKeyword_char]; exact hFs
  have hGc : G.commit =
      { c with
        originalSubject := osAfter m c.originalSubject,
        body := bodyAfter m c.body,
        note := noteAfter m c.note,
        pr := prAfter6 m o r c.pr,
        originalPr := qAfter6 m o r c.pr c.originalPr,
        type := tAfterKw m c.type,
        issueNumber := iAfterKw m c.issueNumber } := by
    rw [← hG, stKeyword_char, hFc, hFs]; rfl
  generalize hH : stMdFixes m G = H
  have hHs : H.subject = subjAfterSem m := by rw [← hH, stMdFixes_char]; exact hGs
  have hHc : H.commit =
      { c with
        originalSubject := osAfter m c.originalSubject,
        body := bodyAfter m c.body,
        note := noteAfter m c.note,
        pr := prAfter6 m o r c.pr,
        originalPr := qAfter6 m o r c.pr c.originalPr,
        type := tAfterKw m c.type,
        issueNumber := iAfterKw m c.issueNumber } := by
    rw [← hH, stMdFixes_char, hmd]
    dsimp only
    simp only [ite_self]
    rw [hGc]
  generalize hI : stBreaking m H = I
  have hIs : I.subject = subjAfterSem m := by rw [← hI, stBreaking_char]; exact hHs
  have hIc : I.commit =
      { c with
        originalSubject := osAfter m c.originalSubject,
        body := bodyAfter m c.body,
        note := noteAfter m c.note,
        pr := prAfter6 m o r c.pr,
        originalPr := qAfter6 m o r c.pr c.originalPr,
        type := tAfterBr m c.type,
        issueNumber := iAfterKw m c.issueNumber } := by
    rw [← hI, stBreaking_char, hHc]; rfl
  generalize hJ : stRevert (splitSubjectBody m).2 I = J
  have hJs : J.subject = subjAfterSem m := by rw [← hJ, stRevert_char]; exact hIs
  have hJc : J.commit =
      { c with
        originalSubject := osAfter m c.originalSubject,
        body := bodyAfter m c.body,
        note := noteAfter m c.note,
        pr := prAfter6 m o r c.pr,
        originalPr := qAfter6 m o r c.pr c.originalPr,
        type := tAfterBr m c.type,
        issueNumber := iAfterKw m c.issueNumber,
        revertHash := rvAfter m c.revertHash } := by
    rw [← hJ, stRevert_char, hIc]; rfl
  generalize hK : stManualBackportT m J = K
  have hKs : K.subject = subjAfterSem m := by rw [← hK, stManualBackportT_char]; exact hJs
  have hKc : K.commit =
      { c with
        originalSubject := osAfter m c.originalSubject,
        body := bodyAfter m c.body,
        note := noteAfter m c.note,
        pr := prAfter11 m o r c.pr,
        originalPr := qAfter11 m o r c.pr c.originalPr,
        type := tAfterBr m c.type,
        issueNumber := iAfterKw m c.issueNumber,
        revertHash := rvAfter m c.revertHash } := by
    rw [← hK, stManualBackportT_char, hJc]; rfl
  generalize hL : stAckportUrlT m K = L
  have hLs : L.subject = subjAfterSem m := by rw [← hL, stAckportUrlT_char]; exact hKs
  have hLc : L.commit =
      { c with
        originalSubject := osAfter m c.originalSubject,
        body := bodyAfter m c.body,
        note := noteAfter m c.note,
        pr := prAfter12 m o r c.pr,
        originalPr := qAfter12 m o r c.pr c.originalPr,
        type := tAfterBr m c.type,
        issueNumber := iAfterKw m c.issueNumber,
        revertHash := rvAfter m c.revertHash } := by
    rw [← hL, stAckportUrlT_char, hKc]; rfl
  generalize hM : stLegacy m L = M
  have hMs : M.subject = subjAfterSem m := by rw [← hM, stLegacy_char]; exact hLs
  have hMc : M.commit =
      { c with
        originalSubject := osAfter m c.originalSubject,
        body := bodyAfter m c.body,
        note := noteAfter m c.note,
        pr := prAfter12 m o r c.pr,
        originalPr := qAfter12 m o r c.pr c.originalPr,
        type := tFinal m c.type,
        issueNumber := iAfterKw m c.issueNumber,
        revertHash := rvAfter m c.revertHash } := by
    rw [← hM, stLegacy_char, hLc]; rfl
  rw [stSubjectFinal_char, hMc, hMs]

theorem legacyType_fix (m : String) : legacyType m (some ("fix")) = some ("fix") := by
  unfold legacyType
  rw [if_neg]
  decide

theorem legacyType_doc (m : String) : legacyType m (some ("doc")) = some ("doc") := by
  unfold legacyType
  rw [if_neg]
  decide

theorem legacyType_idem (m : String) :
    legacyType m (legacyType m none) = legacyType m none := by
  unfold legacyType
  rcases hcs : matchChoreScope (lowerJS m) with _ | scope
  · by_cases hf : hasFixWord (lowerJS m) = true
    · simp [hcs, hf, optTruthy]
    · by_cases hd : hasDocsTag (lowerJS m) = true
      · simp [hcs, hf, hd, optTruthy]
      · simp [hcs, hf, hd, optTruthy]
  · by_cases hk : knownTypes.contains scope = true
    · by_cases hsc : scope = ("chore")
      · subst hsc
        simp [hcs, hk, optTruthy]
      · have hne : scope ≠ ("") := by
          intro h
          subst h
          revert hk
          decide
        simp [hcs, hk, hsc, hne, optTruthy]
    · simp [hcs, hk, optTruthy]

theorem tFinal_idem (m : String) : tFinal m (tFinal m none) = tFinal m none := by
  by_cases hb : hasBreakingPara m = true
  · simp only [tFinal, tAfterBr, hb, if_true]
  · simp [tFinal, tAfterBr, hb]
    rcases hkw : matchCloseKeyword (subjAfterSem m) with _ | ds
    · rcases hsem : matchSemantic (subjAfterPr m) with _ | ⟨w, rest⟩
      · simp only [tAfterKw, tAfterSem, hkw, hsem]
        exact legacyType_idem m
      · simp only [tAfterKw, tAfterSem, hkw, hsem]
    · rcases hsem : matchSemantic (subjAfterPr m) with _ | ⟨w, rest⟩
      · simp [tAfterKw, tAfterSem, hkw, hsem, optTruthy, legacyType_fix]
      · simp only [tAfterKw, tAfterSem, hkw, hsem]

theorem iAfterKw_idem (m : String) : iAfterKw m (iAfterKw m none) = iAfterKw m none := by
  unfold iAfterKw
  rcases h : matchCloseKeyword (subjAfterSem m) with _ | ds <;> simp

theorem rvAfter_idem (m : String) : rvAfter m (rvAfter m none) = rvAfter m none := by
  unfold rvAfter
  rcases h : matchRevert (splitSubjectBody m).2 with _ | hx <;> simp

theorem osAfter_idem (m : String) : osAfter m (osAfter m none) = osAfter m none := by
  unfold osAfter
  simp [optTruthy]

theorem bodyAfter_idem (m : String) :
    bodyAfter m (bodyAfter m none) = bodyAfter m none := by
  unfold bodyAfter
  by_cases hb : (splitSubjectBody m).2 = ("") <;> simp [hb]

theorem noteAfter_idem (m : String) :
    noteAfter m (noteAfter m none) = noteAfter m none := by
  unfold noteAfter
  by_cases hb : (splitSubjectBody m).2 = ("")
  · simp [hb]
  · by_cases hn : optTruthy (getNoteFromBody (some ((splitSubjectBody m).2))) = true <;>
      simp [hb, hn]

set_option maxHeartbeats 1000000 in
theorem prAfter_idem (m o r : String) :
    prAfter12 m o r (prAfter12 m o r none) = prAfter12 m o r none := by
  rcases h3 : matchPrSuffix (splitSubjectBody m).1 with _ | ⟨rest3, ds3⟩ <;>
    rcases h5 : matchMergePr (subjAfterSem m) with _ | ⟨ds5, br5⟩ <;>
      rcases h6 : matchBackportOf m with _ | ds6 <;>
        rcases h11 : manualVal m with _ | ⟨o11, r11, ds11⟩ <;>
          rcases h12 : ackportVal m with _ | ⟨o12, r12, ds12⟩ <;>
            simp [prAfter12, prAfter11, prAfter6, prAfter5, prAfter3,
              h3, h5, h6, h11, h12]

set_option maxHeartbeats 1000000 in
theorem qAfter_idem (m o r : String) :
    qAfter12 m o r (prAfter12 m o r none) (qAfter12 m o r none none) =
      qAfter12 m o r none none := by
  rcases h3 : matchPrSuffix (splitSubjectBody m).1 with _ | ⟨rest3, ds3⟩ <;>
    rcases h5 : matchMergePr (subjAfterSem m) with _ | ⟨ds5, br5⟩ <;>
      rcases h6 : matchBackportOf m with _ | ds6 <;>
        rcases h11 : manualVal m with _ | ⟨o11, r11, ds11⟩ <;>
          rcases h12 : ackportVal m with _ | ⟨o12, r12, ds12⟩ <;>
            simp [qAfter12, qAfter11, qAfter6, qAfter5, qAfter3,
              prAfter12, prAfter11, prAfter6, prAfter5, prAfter3,
              h3, h5, h6, h11, h12]

theorem commitExt {a b : Commit}
    (h1 : a.email = b.email) (h2 : a.hash = b.hash) (h3 : a.owner = b.owner)
    (h4 : a.repo = b.repo) (h5 : a.originalSubject = b.originalSubject)
    (h6 : a.subject = b.subject) (h7 : a.body = b.body) (h8 : a.note = b.note)
    (h9 : a.type = b.type) (h10 : a.pr = b.pr) (h11 : a.originalPr = b.originalPr)
    (h12 : a.issueNumber = b.issueNumber) (h13 : a.revertHash = b.revertHash) :
    a = b := by
  cases a
  cases b
  simp_all

/-- One full re-parse of an already-parsed record is the identity, for
messages without a markdown Fixes pattern. -/
theorem parseTotal_idem (m o r : String) (hmd : matchMdFixes m = none) :
    parseTotal m o r (parseTotal m o r emptyCommit) = parseTotal m o r emptyCommit := by
  rw [parseTotal_char m o r (parseTotal m o r emptyCommit) hmd,
    parseTotal_char m o r emptyCommit hmd]
  apply commitExt
  · rfl
  · rfl
  · rfl
  · rfl
  · exact osAfter_idem m
  · rfl
  · exact bodyAfter_idem m
  · exact noteAfter_idem m
  · exact tFinal_idem m
  · exact prAfter_idem m o r
  · exact qAfter_idem m o r
  · exact iAfterKw_idem m
  · exact rvAfter_idem m

/-- C3 (amended): `parseCommitMessage` is idempotent on already-parsed
records whenever the message does not match the markdown
`Fixes [#N](...)` pattern: re-parsing the same message on the record
produced by a first parse returns that record unchanged. -/
theorem parse_idempotent_without_mdFixes (m o r : String) (c1 : Commit)
    (hmd : matchMdFixes m = none)
    (h : parseCommitMessage m o r emptyCommit = some c1) :
    parseCommitMessage m o r c1 = some c1 := by
  rw [parse_eq] at h ⊢
  by_cases hok : parseOk m o r = true
  · rw [if_pos hok] at h ⊢
    have hv := Option.some.inj h
    subst hv
    exact congrArg some (parseTotal_idem m o r hmd)
  · rw [if_neg hok] at h
    exact absurd h (by simp)

theorem parse_idempotent_witness :
    parseCommitMessage ("fix: bar (#7)") ("electron") ("electron")
        (parseTotal ("fix: bar (#7)") ("electron") ("electron") emptyCommit) =
      some (parseTotal ("fix: bar (#7)") ("electron") ("electron") emptyCommit) :=
  parse_idempotent_without_mdFixes ("fix: bar (#7)") ("electron") ("electron")
    (parseTotal ("fix: bar (#7)") ("electron") ("electron") emptyCommit)
    (by decide) (by rw [parse_eq]; decide)

/-! ### C10: the manual-backport rule stores a digit string, not a number -/

/-- Claim C10: when the manual-backport rule fires (message contains
`backport` and an allow-listed `owner/repo#number` token), the recorded
`pr.number` is the matched digit string with no integer conversion, unlike
the other pull-request-recording rules, which store `parseInt` results; a
strict (`!==`-style) comparison between the two representations of the same
number — the comparison the follow-up loop's unchanged-PR check performs —
is therefore false. -/
theorem manual_backport_stores_string_number :
    (parseCommitMessage ("backport electron/electron#5") ("electron") ("electron")
        emptyCommit).map (fun c => c.pr.map (fun p => p.number)) =
      some (some (.str ("5"))) ∧
    (parseCommitMessage ("foo (#5)") ("electron") ("electron")
        emptyCommit).map (fun c => c.pr.map (fun p => p.number)) =
      some (some (.int 5)) ∧
    prNumEqJS (.str ("5")) (.int 5) = false := by
  refine ⟨by decide, by decide, by decide⟩

/-! ### C6: only the first newline of a note paragraph is replaced -/

/-- Claim C6 (code bug): the cleaning step uses `.replace(/\r?\n/, ' ')`
without the global flag, so a `Notes:` paragraph with two internal newlines
keeps the second one — the returned note still contains a newline, although
the code's own comment says "remove newlines" and the spec says internal
newlines are collapsed to spaces. -/
theorem noteFromBody_keeps_second_newline :
    getNoteFromBody (some ("Notes: first\nsecond\nthird")) =
      some ("first second\nthird") ∧
    (String.data ("first second\nthird")).contains '\n' = true := by
  refine ⟨by decide, by decide⟩

/-! ### C5: the no-notes spellings are matched case-sensitively beyond the
initial letter -/

/-- Claim C5 counterexample: `Notes: NONE` is case-insensitively `none`, so
the claim requires the sentinel, but `/^[Nn]one\.?$/` only tolerates case in
the initial letter and the code returns the cleaned text `"NONE"`. -/
theorem noteFromBody_case_sensitivity_counterexample :
    getNoteFromBody (some ("Notes: NONE")) = some ("NONE") ∧
    (("NONE") : String) ≠ NO_NOTES := by
  refine ⟨by decide, by decide⟩

/-! ### C1: `originalPr` is not write-once across enrichment passes -/

/-- Claim C1 counterexample: a first parse of `fix: foo (#5)` assigns
`originalPr = (electron, electron, 5)`; a second enrichment pass whose
message matches the markdown `Fixes [#5](...)` pattern clears `originalPr`
(its number equals the detected issue number) and the manual-backport rule
later in the same pass assigns a fresh `originalPr = (electron, electron,
"9")` — the field is both cleared and replaced by a later pass. -/
theorem originalPr_replaced_counterexample :
    ((parseCommitMessage ("fix: foo (#5)") ("electron") ("electron")
        emptyCommit).map (fun c => c.originalPr)) =
      some (some { owner := ("electron"), repo := ("electron"),
                   number := .int 5, branch := none }) ∧
    (((parseCommitMessage ("fix: foo (#5)") ("electron") ("electron")
        emptyCommit).bind
          (parseCommitMessage
            ("Fixes [#5](https://github.com/electron/electron/issues/5)\n\nbackport electron/electron#9")
            ("electron") ("electron"))).map (fun c => c.originalPr)) =
      some (some { owner := ("electron"), repo := ("electron"),
                   number := .str ("9"), branch := none }) ∧
    (({ owner := ("electron"), repo := ("electron"), number := .int 5,
        branch := none } : Pr) ≠
      { owner := ("electron"), repo := ("electron"), number := .str ("9"),
        branch := none }) := by
  refine ⟨by decide, by decide, by decide⟩

/-! ### C3: `parseCommitMessage` is not idempotent -/

/-- Claim C3 counterexample: on
`foo (#5)\n\nFixes [#5](https://github.com/electron/electron/issues/5)` the
first parse records then clears `pr`/`originalPr` (the markdown rule detects
issue 5 = pr 5) and sets `issueNumber`; re-parsing the already-parsed record
skips the markdown rule (`issueNumber` is set) so the ` (#5)` rule's
assignment of `pr`/`originalPr` survives — the second result differs from
the first. -/
theorem parse_not_idempotent_counterexample :
    ((parseCommitMessage
        ("foo (#5)\n\nFixes [#5](https://github.com/electron/electron/issues/5)")
        ("electron") ("electron") emptyCommit).map (fun c => c.pr)) =
      some none ∧
    (((parseCommitMessage
        ("foo (#5)\n\nFixes [#5](https://github.com/electron/electron/issues/5)")
        ("electron") ("electron") emptyCommit).bind
          (parseCommitMessage
            ("foo (#5)\n\nFixes [#5](https://github.com/electron/electron/issues/5)")
            ("electron") ("electron"))).map (fun c => c.pr)) =
      some (some { owner := ("electron"), repo := ("electron"),
                   number := .int 5, branch := none }) ∧
    ((parseCommitMessage
        ("foo (#5)\n\nFixes [#5](https://github.com/electron/electron/issues/5)")
        ("electron") ("electron") emptyCommit).bind
          (parseCommitMessage
            ("foo (#5)\n\nFixes [#5](https://github.com/electron/electron/issues/5)")
            ("electron") ("electron"))) ≠
      parseCommitMessage
        ("foo (#5)\n\nFixes [#5](https://github.com/electron/electron/issues/5)")
        ("electron") ("electron") emptyCommit := by
  refine ⟨by decide, by decide, by decide⟩

/-! ### C2: the follow-up loop and pull-request cycles -/

theorem cyc_step0 : scrapeStep cycOracle cCyc0 prA = .more cCyc1 prB := by decide

theorem cyc_step1 : scrapeStep cycOracle cCyc1 prB = .more cCyc2 prA := by decide

theorem cyc_step2 : scrapeStep cycOracle cCyc2 prA = .more cCyc1 prB := by decide

theorem cyc_note1 : optTruthy cCyc1.note = false := by decide

theorem cyc_note2 : optTruthy cCyc2.note = false := by decide

/-- From the two-cycle states the loop never finishes, whatever the fuel. -/
theorem cyc_aux (n : Nat) :
    scrapeRun cycOracle n cCyc1 (some prB) = .fuelOut ∧
    scrapeRun cycOracle n cCyc2 (some prA) = .fuelOut := by
  induction n with
  | zero => exact ⟨by decide, by decide⟩
  | succ n ih =>
    constructor
    · simp only [scrapeRun, cyc_note1, cyc_step1, Bool.false_eq_true, if_false]
      exact ih.2
    · simp only [scrapeRun, cyc_note2, cyc_step2, Bool.false_eq_true, if_false]
      exact ih.1

/-- Claim C2 counterexample: with the cyclic oracle `cycOracle`, the
follow-up loop started on `cCyc0` (pull request 5) runs out of any amount of
fuel — the `pr`-changed guard does not terminate the loop when two pull
requests reference each other, contradicting the claim that it prevents
infinite looping on such cycles. -/
theorem scrape_cycle_nonterminating :
    ¬ ∃ n, scrapeRun cycOracle n cCyc0 (some prA) ≠ RunRes.fuelOut := by
  rintro ⟨n, hn⟩
  apply hn
  cases n with
  | zero => decide
  | succ n =>
    have h0 : optTruthy cCyc0.note = false := by decide
    simp only [scrapeRun, h0, cyc_step0, Bool.false_eq_true, if_false]
    exact (cyc_aux n).1

/-- Claim C2, amended: each loop iteration either stops (note found, no pull
request, metadata unavailable, or pull-request number unchanged) or
continues with a pull request whose number differs from the previous
iteration's under the strict comparison; the guard therefore stops immediate
self-reference, but (see the counterexample) does not bound the iteration
when two distinct pull requests reference each other. -/
theorem scrape_continues_only_on_changed_pr
    (oracle : PrOracle) (c : Commit) (pr : Pr) (c' : Commit) (pr' : Pr)
    (h : scrapeStep oracle c pr = .more c' pr') :
    prNumEqJS pr.number pr'.number = false := by
  unfold scrapeStep at h
  split at h
  · exact absurd h (by simp)
  · rename_i d _
    unfold scrapeStepTail at h
    split at h
    · exact absurd h (by simp)
    · split at h
      · exact absurd h (by simp)
      · split at h
        · exact absurd h (by simp)
        · split at h
          · exact absurd h (by simp)
          · rename_i hne
            cases h
            exact Bool.eq_false_iff.mpr hne

/-- Witness for the loop-guard theorem at the cyclic oracle: iterating from
pull request 7 continues with pull request 5, and the strict number
comparison indeed sees a change. -/
theorem scrape_continues_witness :
    prNumEqJS prB.number prA.number = false :=
  scrape_continues_only_on_changed_pr cycOracle cCyc1 prB cCyc2 prA (by decide)

/-! ### C8: dependency commits are gated on same-major semver refs -/

/-- Claim C8: `getNotes` adds dependency-repository commits to the pool iff
`fromRef` and `toRef` are both valid semantic versions with the same major
version (`includeDeps`, lines 408-414); otherwise the pool holds only the
electron commits.  The `semver` library's `valid`/`major` are modelled from
the spec (`semverParse`/`semverMajor`). -/
theorem dependency_commits_gated_by_semver_major
    (electronCommits depCommits : List Commit) (fromRef toRef : String) :
    (includeDepsB fromRef toRef =
      ((semverParse fromRef).isSome && (semverParse toRef).isSome &&
        semverMajor fromRef = semverMajor toRef)) ∧
    (includeDepsB fromRef toRef = true →
      poolAfterDeps electronCommits depCommits fromRef toRef =
        electronCommits ++ depCommits) ∧
    (includeDepsB fromRef toRef = false →
      poolAfterDeps electronCommits depCommits fromRef toRef = electronCommits) := by
  refine ⟨rfl, fun h => ?_, fun h => ?_⟩
  · unfold poolAfterDeps
    rw [h]
    simp
  · unfold poolAfterDeps
    rw [h]
    simp

/-- Witness for the dependency gate: `1.2.3 → 1.8.0` (same major) includes
the dependency commit, `1.2.3 → 2.0.0` (different major) and
`master → 1.2.3` (not a semver) do not. -/
theorem dependency_commits_gated_witness :
    poolAfterDeps [emptyCommit] [markNoNotes emptyCommit] ("1.2.3") ("1.8.0") =
      [emptyCommit] ++ [markNoNotes emptyCommit] ∧
    poolAfterDeps [emptyCommit] [markNoNotes emptyCommit] ("1.2.3") ("2.0.0") =
      [emptyCommit] ∧
    poolAfterDeps [emptyCommit] [markNoNotes emptyCommit] ("master") ("1.2.3") =
      [emptyCommit] :=
  ⟨(dependency_commits_gated_by_semver_major [emptyCommit] [markNoNotes emptyCommit]
      ("1.2.3") ("1.8.0")).2.1 (by decide),
   (dependency_commits_gated_by_semver_major [emptyCommit] [markNoNotes emptyCommit]
      ("1.2.3") ("2.0.0")).2.2 (by decide),
   (dependency_commits_gated_by_semver_major [emptyCommit] [markNoNotes emptyCommit]
      ("master") ("1.2.3")).2.2 (by decide)⟩

/-! ### C5: characterization of `getNoteFromBody` -/

/-- The sentinel branch of `getNoteFromBody` agrees with the amended
spelling-list formulation for every cleaned text. -/
theorem sentinel_branch_eq (t : String) :
    (if t ≠ ("") && (noNotesTokens.contains t || noneTokens.contains t) then
      some NO_NOTES
    else some t) =
    (if t = ("") then some t
     else if isNoNotesSpelling t then some NO_NOTES
     else some t) := by
  by_cases ht : t = ("")
  · simp [ht]
  · by_cases hs : (noNotesTokens.contains t || noneTokens.contains t) = true
    · simp [ht, hs, isNoNotesSpelling, List.contains]
    · simp [ht, hs, isNoNotesSpelling, List.contains]

/-- Claim C5, amended: `getNoteFromBody` agrees with the specification
function `noteFromBodySpec` on every body. -/
theorem noteFromBody_characterization (b : String) :
    getNoteFromBody (some b) = noteFromBodySpec b := by
  show (if b = ("") then none
    else
      match notesParaOf b with
      | none => none
      | some p =>
        let note := cleanNotePara p
        if note ≠ ("") && (noNotesTokens.contains note || noneTokens.contains note) then
          some NO_NOTES
        else some note) = _
  unfold noteFromBodySpec
  by_cases hb : b = ("")
  · simp [hb]
  · rw [if_neg hb, if_neg hb]
    cases notesParaOf b with
    | none => rfl
    | some p => exact sentinel_branch_eq (cleanNotePara p)

/-! ### C4: the commit/revert cancel-out pass -/

theorem modifyAt_get? (l : List Commit) (i j : Nat) (f : Commit → Commit) :
    (modifyAt l i f)[j]? = if j = i then (l[j]?).map f else l[j]? := by
  induction l generalizing i j with
  | nil => cases i <;> cases j <;> simp [modifyAt]
  | cons c cs ih =>
    cases i with
    | zero => cases j <;> simp [modifyAt]
    | succ i =>
      cases j with
      | zero => simp [modifyAt]
      | succ j => simpa [modifyAt, Nat.succ_inj] using ih i j

theorem modifyAt_map_hash (l : List Commit) (i : Nat) :
    (modifyAt l i markNoNotes).map (fun x => x.hash) = l.map (fun x => x.hash) := by
  induction l generalizing i with
  | nil => cases i <;> simp [modifyAt]
  | cons c cs ih =>
    cases i with
    | zero => simp [modifyAt, markNoNotes]
    | succ i => simp [modifyAt, ih i]

theorem modifyAt_length (l : List Commit) (i : Nat) (f : Commit → Commit) :
    (modifyAt l i f).length = l.length := by
  induction l generalizing i with
  | nil => cases i <;> simp [modifyAt]
  | cons c cs ih =>
    cases i with
    | zero => simp [modifyAt]
    | succ i => simp [modifyAt, ih i]

theorem findIdxFrom_get (l : List (Option String)) (x : String) (i : Nat)
    (h : findIdxFrom l x = some i) : l[i]? = some (some x) := by
  induction l generalizing i with
  | nil => simp [findIdxFrom] at h
  | cons a as ih =>
    unfold findIdxFrom at h
    by_cases ha : a = some x
    · rw [if_pos ha] at h
      cases h
      simpa using ha
    · rw [if_neg ha] at h
      cases hf : findIdxFrom as x with
      | none => rw [hf] at h; simp at h
      | some i' =>
        rw [hf] at h
        simp at h
        subst h
        simpa using ih i' hf

/-- Structure of one cancel-out iteration: either it does nothing, or the
current commit has a found revert target and both positions are marked and
both hashes appended. -/
theorem cancelStepK_cases (st : List Commit × List (Option String)) (k : Nat) :
    cancelStepK st k = st ∨
    ∃ c rh i, st.1[k]? = some c ∧ c.revertHash = some rh ∧
      findIdxFrom (st.1.map (fun x => x.hash)) rh = some i ∧
      cancelStepK st k =
        (modifyAt (modifyAt st.1 k markNoNotes) i markNoNotes,
         st.2 ++ [c.hash, some rh]) := by
  unfold cancelStepK
  cases h1 : st.1[k]? with
  | none => exact Or.inl rfl
  | some c =>
    dsimp only
    cases h2 : c.revertHash with
    | none => exact Or.inl rfl
    | some rh =>
      dsimp only
      cases h3 : findIdxFrom (st.1.map (fun x => x.hash)) rh with
      | none => exact Or.inl rfl
      | some i => exact Or.inr ⟨c, rh, i, rfl, h2, h3, rfl⟩

theorem cancelStepK_map_hash (st : List Commit × List (Option String)) (k : Nat) :
    (cancelStepK st k).1.map (fun x => x.hash) = st.1.map (fun x => x.hash) := by
  rcases cancelStepK_cases st k with h | ⟨c, rh, i, _, _, _, h⟩
  · rw [h]
  · rw [h]
    simp [modifyAt_map_hash]

theorem cancelStepK_length (st : List Commit × List (Option String)) (k : Nat) :
    (cancelStepK st k).1.length = st.1.length := by
  have := congrArg List.length (cancelStepK_map_hash st k)
  simpa using this

/-- The cancel-out pass only rewrites `note`: `hash` and `revertHash` at any
position are either unchanged or belong to a `markNoNotes`-image of the old
element. -/
theorem cancelStepK_get? (st : List Commit × List (Option String)) (k m : Nat) :
    (cancelStepK st k).1[m]? = st.1[m]? ∨
    (cancelStepK st k).1[m]? = (st.1[m]?).map markNoNotes := by
  rcases cancelStepK_cases st k with h | ⟨c, rh, i, _, _, _, h⟩
  · rw [h]; exact Or.inl rfl
  · rw [h]
    simp only [modifyAt_get?]
    by_cases hmi : m = i
    · rw [if_pos hmi]
      by_cases hmk : m = k
      · rw [if_pos hmk]
        right
        simp [Option.map_map]
        rfl
      · rw [if_neg hmk]; exact Or.inr rfl
    · rw [if_neg hmi]
      by_cases hmk : m = k
      · rw [if_pos hmk]; exact Or.inr rfl
      · rw [if_neg hmk]; exact Or.inl rfl

theorem cancelStepK_note_stable (st : List Commit × List (Option String)) (k m : Nat)
    (h : (st.1[m]?).map (fun c => c.note) = some (some NO_NOTES)) :
    ((cancelStepK st k).1[m]?).map (fun c => c.note) = some (some NO_NOTES) := by
  rcases cancelStepK_get? st k m with he | he <;> rw [he]
  · exact h
  · cases hg : st.1[m]? with
    | none => rw [hg] at h; simp at h
    | some c => simp [markNoNotes]

theorem cancelStepK_ph_mono (st : List Commit × List (Option String)) (k : Nat)
    (x : Option String) (h : x ∈ st.2) : x ∈ (cancelStepK st k).2 := by
  rcases cancelStepK_cases st k with he | ⟨c, rh, i, _, _, _, he⟩ <;> rw [he]
  · exact h
  · exact List.mem_append_left _ h

theorem cancelAux_note_stable (n : Nat) :
    ∀ (k : Nat) (st : List Commit × List (Option String)) (m : Nat),
    (st.1[m]?).map (fun c => c.note) = some (some NO_NOTES) →
    ((cancelAux n k st).1[m]?).map (fun c => c.note) = some (some NO_NOTES) := by
  induction n with
  | zero => intro k st m h; exact h
  | succ n ih =>
    intro k st m h
    exact ih (k + 1) (cancelStepK st k) m (cancelStepK_note_stable st k m h)

theorem cancelAux_ph_mono (n : Nat) :
    ∀ (k : Nat) (st : List Commit × List (Option String)) (x : Option String),
    x ∈ st.2 → x ∈ (cancelAux n k st).2 := by
  induction n with
  | zero => intro k st x h; exact h
  | succ n ih =>
    intro k st x h
    exact ih (k + 1) (cancelStepK st k) x (cancelStepK_ph_mono st k x h)

theorem cancelAux_map_hash (n : Nat) :
    ∀ (k : Nat) (st : List Commit × List (Option String)),
    (cancelAux n k st).1.map (fun x => x.hash) = st.1.map (fun x => x.hash) := by
  induction n with
  | zero => intro k st; rfl
  | succ n ih =>
    intro k st
    rw [show cancelAux (n + 1) k st = cancelAux n (k + 1) (cancelStepK st k) from rfl,
        ih (k + 1) (cancelStepK st k), cancelStepK_map_hash]

/-- The marking step: when the loop reaches index `j` holding a commit whose
`revertHash` is found at index `i`, both notes become the sentinel and both
hashes are appended. -/
theorem cancelStepK_marks (st : List Commit × List (Option String)) (j : Nat)
    (c : Commit) (rh : String) (i : Nat)
    (hj : st.1[j]? = some c) (hrev : c.revertHash = some rh)
    (hfind : findIdxFrom (st.1.map (fun x => x.hash)) rh = some i) :
    ((cancelStepK st j).1[j]?).map (fun x => x.note) = some (some NO_NOTES) ∧
    ((cancelStepK st j).1[i]?).map (fun x => x.note) = some (some NO_NOTES) ∧
    c.hash ∈ (cancelStepK st j).2 ∧ some rh ∈ (cancelStepK st j).2 := by
  have hstep : cancelStepK st j =
      (modifyAt (modifyAt st.1 j markNoNotes) i markNoNotes,
       st.2 ++ [c.hash, some rh]) := by
    unfold cancelStepK
    rw [hj]
    dsimp only
    rw [hrev]
    dsimp only
    rw [hfind]
  have higet : ∃ ci, st.1[i]? = some ci := by
    have hfg := findIdxFrom_get _ _ _ hfind
    rw [List.getElem?_map] at hfg
    cases hg : st.1[i]? with
    | none => rw [hg] at hfg; simp at hfg
    | some ci => exact ⟨ci, rfl⟩
  obtain ⟨ci, hci⟩ := higet
  rw [hstep]
  refine ⟨?_, ?_, ?_, ?_⟩
  · by_cases hji : j = i
    · simp [modifyAt_get?, hji, hj, hci, markNoNotes]
    · simp [modifyAt_get?, hji, hj, hci, markNoNotes]
  · by_cases hij : i = j
    · simp [modifyAt_get?, hij, hj, hci, markNoNotes]
    · simp [modifyAt_get?, hij, hj, hci, markNoNotes]
  · simp
  · simp

/-- Running the cancel-out loop from index `k` over a range containing `j`
marks the commit at `j` and its revert target and records both hashes. -/
theorem cancelAux_marks (n : Nat) :
    ∀ (k : Nat) (st : List Commit × List (Option String)) (j : Nat) (c : Commit)
      (rh : String) (i : Nat),
    st.1[j]? = some c → c.revertHash = some rh →
    findIdxFrom (st.1.map (fun x => x.hash)) rh = some i →
    k ≤ j → j < k + n →
    ((cancelAux n k st).1[j]?).map (fun x => x.note) = some (some NO_NOTES) ∧
    ((cancelAux n k st).1[i]?).map (fun x => x.note) = some (some NO_NOTES) ∧
    c.hash ∈ (cancelAux n k st).2 ∧ some rh ∈ (cancelAux n k st).2 := by
  induction n with
  | zero =>
    intro k st j c rh i _ _ _ hkj hjn
    omega
  | succ n ih =>
    intro k st j c rh i hj hrev hfind hkj hjn
    by_cases hkj' : k = j
    · subst hkj'
      obtain ⟨m1, m2, m3, m4⟩ := cancelStepK_marks st k c rh i hj hrev hfind
      have e : cancelAux (n + 1) k st = cancelAux n (k + 1) (cancelStepK st k) := rfl
      rw [e]
      exact ⟨cancelAux_note_stable n (k + 1) _ k m1,
             cancelAux_note_stable n (k + 1) _ i m2,
             cancelAux_ph_mono n (k + 1) _ _ m3,
             cancelAux_ph_mono n (k + 1) _ _ m4⟩
    · have hkj2 : k + 1 ≤ j := by omega
      have hjn2 : j < (k + 1) + n := by omega
      have e : cancelAux (n + 1) k st = cancelAux n (k + 1) (cancelStepK st k) := rfl
      rw [e]
      rcases cancelStepK_get? st k j with hg | hg
      · refine ih (k + 1) (cancelStepK st k) j c rh i ?_ hrev ?_ hkj2 hjn2
        · rw [hg, hj]
        · rw [cancelStepK_map_hash]; exact hfind
      · refine ih (k + 1) (cancelStepK st k) j (markNoNotes c) rh i ?_ ?_ ?_ hkj2 hjn2
        · rw [hg, hj]; rfl
        · simpa [markNoNotes] using hrev
        · rw [cancelStepK_map_hash]; exact hfind

/-- Claim C4: if the pool holds a commit `B` (at index `j`) whose
`revertHash` is `h1` and the first commit with hash `h1` sits at index `i`,
then after the cancel-out pass both records' notes are the `No notes`
sentinel, both hashes (B's own and `h1`) are in `processedHashes`, the pool
length is unchanged (neither record is removed at that stage), and the final
note filter excludes both records. -/
theorem cancel_out_marks_and_filters
    (cs : List Commit) (ph : List (Option String)) (i j : Nat) (B : Commit)
    (h1 : String)
    (hj : cs[j]? = some B) (hrev : B.revertHash = some h1)
    (hfind : findIdxFrom (cs.map (fun x => x.hash)) h1 = some i) :
    ((cancelPass (cs, ph)).1[i]?).map (fun c => c.note) = some (some NO_NOTES) ∧
    ((cancelPass (cs, ph)).1[j]?).map (fun c => c.note) = some (some NO_NOTES) ∧
    some h1 ∈ (cancelPass (cs, ph)).2 ∧
    B.hash ∈ (cancelPass (cs, ph)).2 ∧
    (cancelPass (cs, ph)).1.length = cs.length ∧
    (∀ c, (cancelPass (cs, ph)).1[i]? = some c →
      c ∉ filterNoNotes (cancelPass (cs, ph)).1) ∧
    (∀ c, (cancelPass (cs, ph)).1[j]? = some c →
      c ∉ filterNoNotes (cancelPass (cs, ph)).1) := by
  have hjlen : j < cs.length := by
    by_contra hge
    rw [List.getElem?_eq_none_iff.mpr (by omega)] at hj
    exact absurd hj (by simp)
  have main := cancelAux_marks cs.length 0 (cs, ph) j B h1 i hj hrev hfind
    (Nat.zero_le j) (by omega)
  have hlen : (cancelPass (cs, ph)).1.length = cs.length := by
    have := congrArg List.length (cancelAux_map_hash cs.length 0 (cs, ph))
    simpa [cancelPass] using this
  obtain ⟨mj, mi, mh, mrh⟩ := main
  have exJ : ∀ c, (cancelPass (cs, ph)).1[j]? = some c →
      c ∉ filterNoNotes (cancelPass (cs, ph)).1 := by
    intro c hc hmem
    rw [cancelPass] at hc
    rw [hc] at mj
    simp at mj
    have : noteKeep c = true := List.of_mem_filter hmem
    rw [noteKeep, mj] at this
    simp at this
  have exI : ∀ c, (cancelPass (cs, ph)).1[i]? = some c →
      c ∉ filterNoNotes (cancelPass (cs, ph)).1 := by
    intro c hc hmem
    rw [cancelPass] at hc
    rw [hc] at mi
    simp at mi
    have : noteKeep c = true := List.of_mem_filter hmem
    rw [noteKeep, mi] at this
    simp at this
  exact ⟨mi, mj, mrh, mh, hlen, exI, exJ⟩

/-- Witness for the cancel-out theorem: the two-element pool of the spec's
own test (`A` with hash `h1`, `B` reverting `h1`). -/
theorem cancel_out_witness :
    ((cancelPass ([{ hash := some ("h1") },
                   { hash := some ("h2"), revertHash := some ("h1") }], [])).1[0]?).map
        (fun c => c.note) = some (some NO_NOTES) ∧
    some ("h1") ∈ (cancelPass ([{ hash := some ("h1") },
                   { hash := some ("h2"), revertHash := some ("h1") }], [])).2 := by
  have h := cancel_out_marks_and_filters
    [{ hash := some ("h1") }, { hash := some ("h2"), revertHash := some ("h1") }]
    [] 0 1 { hash := some ("h2"), revertHash := some ("h1") } ("h1")
    (by decide) (by decide) (by decide)
  exact ⟨h.1, h.2.2.1⟩

/-! ### C9: grouping and sorting in `renderSection` -/

theorem strLtL_irrefl : ∀ a : List Char, strLtL a a = false
  | [] => rfl
  | c :: cs => by simp [strLtL, lt_irrefl, strLtL_irrefl cs]

theorem strLtL_trans : ∀ a b c : List Char,
    strLtL a b = true → strLtL b c = true → strLtL a c = true := by
  intro a
  induction a with
  | nil =>
    intro b c hab hbc
    cases b with
    | nil => simp [strLtL] at hab
    | cons y ys =>
      cases c with
      | nil => simp [strLtL] at hbc
      | cons z zs => simp [strLtL]
  | cons x xs ih =>
    intro b c hab hbc
    cases b with
    | nil => simp [strLtL] at hab
    | cons y ys =>
      cases c with
      | nil => simp [strLtL] at hbc
      | cons z zs =>
        simp only [strLtL] at hab hbc ⊢
        by_cases hxy : x < y
        · by_cases hyz : y < z
          · simp [lt_trans hxy hyz]
          · rw [if_neg hyz] at hbc
            by_cases hzy : z < y
            · rw [if_pos hzy] at hbc; exact absurd hbc (by simp)
            · have hyz2 : y = z := le_antisymm (not_lt.mp hzy) (not_lt.mp hyz)
              subst hyz2
              simp [hxy]
        · rw [if_neg hxy] at hab
          by_cases hyx : y < x
          · rw [if_pos hyx] at hab; exact absurd hab (by simp)
          · rw [if_neg hyx] at hab
            have hxy2 : x = y := le_antisymm (not_lt.mp hyx) (not_lt.mp hxy)
            subst hxy2
            by_cases hyz : x < z
            · simp [hyz]
            · rw [if_neg hyz] at hbc
              by_cases hzy : z < x
              · rw [if_pos hzy] at hbc; exact absurd hbc (by simp)
              · rw [if_neg hzy] at hbc
                rw [if_neg hyz, if_neg hzy]
                exact ih ys zs hab hbc

theorem strLtL_conn : ∀ a b : List Char,
    strLtL a b = false → strLtL b a = false → a = b := by
  intro a
  induction a with
  | nil =>
    intro b hab _
    cases b with
    | nil => rfl
    | cons y ys => simp [strLtL] at hab
  | cons x xs ih =>
    intro b hab hba
    cases b with
    | nil => simp [strLtL] at hba
    | cons y ys =>
      simp only [strLtL] at hab hba
      by_cases hxy : x < y
      · rw [if_pos hxy] at hab; exact absurd hab (by simp)
      · rw [if_neg hxy] at hab hba
        by_cases hyx : y < x
        · rw [if_pos hyx] at hba
          rw [if_pos hyx] at hab
          exact absurd hba (by simp)
        · rw [if_neg hyx] at hab hba
          have hxy2 : x = y := le_antisymm (not_lt.mp hyx) (not_lt.mp hxy)
          rw [hxy2, ih ys hab hba]

theorem strLeB_trans (a b c : String) (hab : strLeB a b = true)
    (hbc : strLeB b c = true) : strLeB a c = true := by
  unfold strLeB at *
  rw [Bool.not_eq_true'] at hab hbc
  rw [Bool.not_eq_true']
  by_cases h : strLtL c.data a.data = true
  · by_cases hab2 : strLtL a.data b.data = true
    · have := strLtL_trans _ _ _ h hab2
      rw [hbc] at this
      exact absurd this (by simp)
    · have hEq : a.data = b.data :=
        strLtL_conn _ _ (Bool.not_eq_true _ ▸ hab2) hab
      rw [hEq] at h
      rw [hbc] at h
      exact absurd h (by simp)
  · exact Bool.not_eq_true _ ▸ h

theorem strLeB_total (a b : String) : (strLeB a b || strLeB b a) = true := by
  unfold strLeB
  by_cases h1 : strLtL b.data a.data = true
  · by_cases h2 : strLtL a.data b.data = true
    · have := strLtL_trans _ _ _ h1 h2
      rw [strLtL_irrefl] at this
      exact absurd this (by simp)
    · simp [Bool.not_eq_true _ ▸ h2]
  · simp [Bool.not_eq_true _ ▸ h1]

theorem insertSorted_perm (x : String) (l : List String) :
    List.Perm (insertSorted x l) (x :: l) := by
  induction l with
  | nil => rfl
  | cons y ys ih =>
    unfold insertSorted
    by_cases h : strLeB x y = true
    · rw [if_pos h]
    · rw [if_neg h]
      exact (List.Perm.cons y ih).trans (List.Perm.swap x y ys)

theorem sortStr_perm (l : List String) : List.Perm (sortStr l) l := by
  induction l with
  | nil => rfl
  | cons a l ih =>
    have : sortStr (a :: l) = insertSorted a (sortStr l) := rfl
    rw [this]
    exact (insertSorted_perm a (sortStr l)).trans (List.Perm.cons a ih)

theorem insertSorted_sorted (x : String) (l : List String)
    (h : List.Pairwise (fun a b => strLeB a b = true) l) :
    List.Pairwise (fun a b => strLeB a b = true) (insertSorted x l) := by
  induction l with
  | nil => simp [insertSorted]
  | cons y ys ih =>
    rcases List.pairwise_cons.mp h with ⟨hy, hys⟩
    unfold insertSorted
    by_cases hxy : strLeB x y = true
    · rw [if_pos hxy]
      refine List.pairwise_cons.mpr ⟨?_, h⟩
      intro b hb
      rcases List.mem_cons.mp hb with rfl | hb
      · exact hxy
      · exact strLeB_trans _ _ _ hxy (hy b hb)
    · rw [if_neg hxy]
      refine List.pairwise_cons.mpr ⟨?_, ih hys⟩
      intro b hb
      have hmem := (insertSorted_perm x ys).mem_iff.mp hb
      rcases List.mem_cons.mp hmem with hbx | hb2
      · subst hbx
        rcases (Bool.or_eq_true _ _).mp (strLeB_total b y) with h1 | h2
        · exact absurd h1 hxy
        · exact h2
      · exact hy b hb2

theorem sortStr_sorted (l : List String) :
    List.Pairwise (fun a b => strLeB a b = true) (sortStr l) := by
  induction l with
  | nil => exact List.Pairwise.nil
  | cons a l ih =>
    have : sortStr (a :: l) = insertSorted a (sortStr l) := rfl
    rw [this]
    exact insertSorted_sorted a (sortStr l) ih

theorem insertLink_keys (acc : List (String × List String)) (r : Rendered) :
    (insertLink acc r).map Prod.fst =
      if (acc.map Prod.fst).contains r.note then acc.map Prod.fst
      else acc.map Prod.fst ++ [r.note] := by
  induction acc with
  | nil => simp [insertLink]
  | cons e rest ih =>
    obtain ⟨k, ls⟩ := e
    by_cases hk : k = r.note
    · subst hk
      simp [insertLink]
    · have hne : (r.note == k) = false := by
        simp
        exact fun h => hk h.symm
      simp only [insertLink, if_neg hk, List.map_cons, List.contains_cons, hne,
        Bool.false_or]
      rw [ih]
      exact apply_ite (fun l => k :: l)
        ((List.map Prod.fst rest).contains r.note = true)
        (List.map Prod.fst rest) (List.map Prod.fst rest ++ [r.note])

theorem assocGet_insertLink (acc : List (String × List String)) (r : Rendered)
    (k : String) :
    assocGet (insertLink acc r) k =
      if k = r.note then some ((assocGet acc r.note).getD [] ++ [r.link])
      else assocGet acc k := by
  induction acc with
  | nil =>
    by_cases hk : k = r.note
    · subst hk
      simp [insertLink, assocGet]
    · simp [insertLink, assocGet, hk, Ne.symm hk]
  | cons e rest ih =>
    obtain ⟨ka, la⟩ := e
    by_cases hka : ka = r.note
    · subst hka
      by_cases hk : k = r.note
      · subst hk
        simp [insertLink, assocGet]
      · simp [insertLink, assocGet, hk, Ne.symm hk]
    · by_cases hk2 : ka = k
      · subst hk2
        simp [insertLink, assocGet, hka]
      · simp [insertLink, assocGet, hka, hk2, ih]

theorem assocGet_mem (l : List (String × List String)) (k : String)
    (v : List String) (h : assocGet l k = some v) : (k, v) ∈ l := by
  induction l with
  | nil => simp [assocGet] at h
  | cons e rest ih =>
    obtain ⟨ka, la⟩ := e
    unfold assocGet at h
    by_cases hk : ka = k
    · rw [if_pos hk] at h
      cases h
      subst hk
      exact List.mem_cons_self _ _
    · rw [if_neg hk] at h
      exact List.mem_cons_of_mem _ (ih h)

theorem assocGet_isSome_of_mem_keys (l : List (String × List String)) (k : String)
    (h : k ∈ l.map Prod.fst) : (assocGet l k).isSome := by
  induction l with
  | nil => simp at h
  | cons e rest ih =>
    obtain ⟨ka, la⟩ := e
    unfold assocGet
    by_cases hk : ka = k
    · simp [hk]
    · rw [if_neg hk]
      apply ih
      simp at h
      rcases h with h | h
      · exact absurd h.symm hk
      · simpa using h

theorem linksOf_cons (r : Rendered) (rs : List Rendered) (k : String) :
    linksOf (r :: rs) k =
      if r.note = k then r.link :: linksOf rs k else linksOf rs k := by
  by_cases h : r.note = k <;> simp [linksOf, h]

theorem assocGet_group_aux (rs : List Rendered) :
    ∀ (acc : List (String × List String)) (k : String),
    assocGet (rs.foldl insertLink acc) k =
      match assocGet acc k with
      | some ls => some (ls ++ linksOf rs k)
      | none =>
        if (rs.map (fun r => r.note)).contains k then some (linksOf rs k) else none := by
  induction rs with
  | nil =>
    intro acc k
    cases h : assocGet acc k <;> simp [linksOf, h]
  | cons r rs ih =>
    intro acc k
    rw [List.foldl_cons, ih (insertLink acc r) k, assocGet_insertLink]
    by_cases hk : k = r.note
    · subst hk
      cases hacc : assocGet acc r.note with
      | some ls => simp [hacc, linksOf_cons]
      | none => simp [hacc, linksOf_cons]
    · rw [if_neg hk]
      have hlk : linksOf (r :: rs) k = linksOf rs k := by
        rw [linksOf_cons, if_neg (Ne.symm hk)]
      have hck : ((r :: rs).map (fun r => r.note)).contains k =
          (rs.map (fun r => r.note)).contains k := by
        simp [List.contains_cons, hk]
      rw [hlk, hck]

theorem group_keys (rs : List Rendered) :
    (groupRendered rs).map Prod.fst = dedupKeys (rs.map (fun r => r.note)) := by
  unfold groupRendered dedupKeys
  rw [List.foldl_map]
  suffices h : ∀ (acc : List (String × List String)),
      (rs.foldl insertLink acc).map Prod.fst =
      rs.foldl (fun ks r => if ks.contains r.note then ks else ks ++ [r.note])
        (acc.map Prod.fst) by
    exact h []
  induction rs with
  | nil => intro acc; rfl
  | cons r rs ih =>
    intro acc
    rw [List.foldl_cons, List.foldl_cons, ih (insertLink acc r), insertLink_keys]

/-- Claim C9: for any section whose commits all render, the emitted bullet
lines are sorted (code-unit lexicographic order), there is exactly one line
per distinct rendered note text, and the line for each distinct text is the
text followed by all of its links, sorted and comma-joined. -/
theorem renderSection_merges_and_sorts
    (cs : List Commit) (rs : List Rendered) (L : List String)
    (hr : renderAll cs = some rs) (hL : renderSectionLines cs = some L) :
    List.Pairwise (fun a b => strLeB a b = true) L ∧
    L.length = (dedupKeys (rs.map (fun r => r.note))).length ∧
    (∀ k, k ∈ dedupKeys (rs.map (fun r => r.note)) →
      ((" * ") ++ k ++ (" ") ++ joinComma (sortStr (linksOf rs k)) ++ ("\n")) ∈ L) := by
  unfold renderSectionLines at hL
  rw [hr] at hL
  have hLe : L = sortStr ((groupRendered rs).map (fun kv => fmtLine kv.1 kv.2)) := by
    cases hL
    rfl
  subst hLe
  refine ⟨?_, ?_, ?_⟩
  · exact sortStr_sorted _
  · rw [(sortStr_perm _).length_eq, List.length_map,
      show (groupRendered rs).length = ((groupRendered rs).map Prod.fst).length from
        (List.length_map _ _).symm,
      group_keys]
  · intro k hk
    rw [← group_keys] at hk
    have hsome := assocGet_isSome_of_mem_keys _ _ hk
    cases hget : assocGet (groupRendered rs) k with
    | none => rw [hget] at hsome; simp at hsome
    | some ls =>
      have hchar : some ls =
          (if (rs.map (fun r => r.note)).contains k then some (linksOf rs k)
           else none) := by
        rw [← hget]
        exact assocGet_group_aux rs [] k
      have hls : ls = linksOf rs k := by
        by_cases hc : (rs.map (fun r => r.note)).contains k
        · rw [if_pos hc] at hchar
          cases hchar
          rfl
        · rw [if_neg hc] at hchar
          exact absurd hchar (by simp)
      have hmem : (k, ls) ∈ groupRendered rs := assocGet_mem _ _ _ hget
      have hline : fmtLine k ls ∈ (groupRendered rs).map (fun kv => fmtLine kv.1 kv.2) := by
        exact List.mem_map_of_mem (fun kv => fmtLine kv.1 kv.2) hmem
      have : fmtLine k ls ∈ sortStr ((groupRendered rs).map (fun kv => fmtLine kv.1 kv.2)) := by
        exact ((sortStr_perm _).mem_iff).mpr hline
      rw [hls] at this
      exact this

/-- Witness for the renderer theorem: two commits with identical rendered
text (`Fixed a thing.`) but different links merge into the single sorted
bullet line. -/
theorem renderSection_witness :
    ((" * ") ++ ("Fixed a thing.") ++ (" ") ++
      joinComma (sortStr (linksOf
        [{ note := ("Fixed a thing."), link := ("#3") },
         { note := ("Fixed a thing."),
           link := ("https://github.com/electron/electron/commit/abc") }]
        ("Fixed a thing."))) ++ ("\n")) ∈
      [(" * Fixed a thing. #3, https://github.com/electron/electron/commit/abc\n")] :=
  (renderSection_merges_and_sorts
    [{ note := some ("fix a thing"),
       originalPr := some { owner := ("electron"), repo := ("electron"),
                            number := .int 3 } },
     { note := some ("Fix a thing"), owner := some ("electron"),
       repo := some ("electron"), hash := some ("abc") }]
    [{ note := ("Fixed a thing."), link := ("#3") },
     { note := ("Fixed a thing."),
       link := ("https://github.com/electron/electron/commit/abc") }]
    [(" * Fixed a thing. #3, https://github.com/electron/electron/commit/abc\n")]
    (by decide) (by decide)).2.2 ("Fixed a thing.") (by decide)

end Notes
